import Mathlib

/-!
Verification of the open-webui customization script
(`openwebui_css/assets/custom.js`) against its specification.

The script is embedded shallowly: the DOM is a rose tree of elements
carrying the attributes the script reads and writes (class list, `id`
attribute used as the collapsed/expanded marker, inline height style,
measured `scrollHeight`), plus a numeric identity used to model DOM node
identity. The script's module-level state (route flag, observer flag,
`WeakSet` of initialized editors) is a record `EnhState`, and each event
handler of the script becomes a state-transition function.
-/

set_option maxHeartbeats 1000000

/-- A DOM element: identity, class list, `id` attribute, inline height
style (`none` when no inline height was set), measured scroll height and
child elements. -/
inductive Elem : Type where
  | mk (eid : Nat) (classes : List String) (idAttr : String)
      (heightStyle : Option String) (scrollHeight : Nat)
      (children : List Elem) : Elem

namespace Elem

def eid : Elem → Nat
  | .mk i _ _ _ _ _ => i

def classes : Elem → List String
  | .mk _ c _ _ _ _ => c

def idAttr : Elem → String
  | .mk _ _ a _ _ _ => a

def heightStyle : Elem → Option String
  | .mk _ _ _ h _ _ => h

def scrollHeight : Elem → Nat
  | .mk _ _ _ _ s _ => s

def children : Elem → List Elem
  | .mk _ _ _ _ _ cs => cs

/-- `classList.contains`. -/
def hasClass (cls : String) (e : Elem) : Bool :=
  e.classes.contains cls

/-- Set the `id` attribute (`el.id = a`). -/
def setIdAttr (a : String) : Elem → Elem
  | .mk i c _ h s cs => .mk i c a h s cs

/-- Set the inline height style (`el.style.height = v`). -/
def setHeight (v : Option String) : Elem → Elem
  | .mk i c a _ s cs => .mk i c a v s cs

/-- `el.appendChild b`. -/
def appendChild : Elem → Elem → Elem
  | .mk i c a h s cs, b => .mk i c a h s (cs ++ [b])

end Elem

mutual

/-- All nodes of the tree rooted at `e`, in document (pre-)order,
including `e` itself. -/
def allNodes : Elem → List Elem
  | .mk i c a h s cs => .mk i c a h s cs :: allNodesL cs

/-- All nodes of a forest, in document order. -/
def allNodesL : List Elem → List Elem
  | [] => []
  | c :: cs => allNodes c ++ allNodesL cs

end

/-- Identities of all nodes of the tree. -/
def allEids (e : Elem) : List Nat := (allNodes e).map Elem.eid

/-- `root.querySelectorAll('.cls')`: the strict descendants of `root`
carrying class `cls`, in document order. -/
def qsa (cls : String) (e : Elem) : List Elem :=
  (allNodesL e.children).filter (fun n => n.hasClass cls)

/-- `document.querySelectorAll('.cls')` where `d` is the document root:
every element of the document carrying class `cls`, in document order. -/
def qsDoc (cls : String) (d : Elem) : List Elem :=
  (allNodes d).filter (fun n => n.hasClass cls)

mutual

/-- Look up the node with identity `k` (first in document order). -/
def findE (k : Nat) : Elem → Option Elem
  | .mk i c a h s cs =>
    if i = k then some (.mk i c a h s cs) else findEL k cs

def findEL (k : Nat) : List Elem → Option Elem
  | [] => none
  | e :: es =>
    match findE k e with
    | some r => some r
    | none => findEL k es

end

/-- Identities of the subtree rooted at the node with identity `k`
(empty when no such node exists). -/
def subEids (d : Elem) (k : Nat) : List Nat :=
  match findE k d with
  | some e => allEids e
  | none => []

mutual

/-- Apply `f` to the node with identity `t` (every such node; documents
are used with distinct identities), leaving all other nodes intact. -/
def updAt (t : Nat) (f : Elem → Elem) : Elem → Elem
  | .mk i c a h s cs =>
    if i = t then f (.mk i c a h s cs)
    else .mk i c a h s (updAtL t f cs)

def updAtL (t : Nat) (f : Elem → Elem) : List Elem → List Elem
  | [] => []
  | e :: es => updAt t f e :: updAtL t f es

end

mutual

/-- `el.closest(sel)` resolution: returns `none` when `t` is not in the
tree, `some r` when it is, where `r` is the nearest ancestor-or-self of
the node with identity `t` satisfying `sel` (`none` when no ancestor
matches). -/
def closestA (sel : Elem → Bool) (t : Nat) : Elem → Option (Option Nat)
  | .mk i c a h s cs =>
    if i = t then
      some (if sel (.mk i c a h s cs) then some i else none)
    else
      match closestAL sel t cs with
      | none => none
      | some r => some (r.orElse (fun _ => if sel (.mk i c a h s cs) then some i else none))

def closestAL (sel : Elem → Bool) (t : Nat) : List Elem → Option (Option Nat)
  | [] => none
  | c :: cs =>
    match closestA sel t c with
    | some r => some r
    | none => closestAL sel t cs

end

/-- `el.closest(sel)` for the element with identity `t` in document `d`. -/
def closestE (sel : Elem → Bool) (t : Nat) (d : Elem) : Option Nat :=
  (closestA sel t d).bind id

/-- `el.parentElement` for the element with identity `t` in document `d`. -/
def parentOf (d : Elem) (t : Nat) : Option Nat :=
  ((allNodes d).find? (fun n => n.children.any (fun c => c.eid == t))).map Elem.eid

-- ### The script's constants

/-- `COLLAPSED_HEIGHT`: default height for collapsed code blocks, px. -/
def COLLAPSED_HEIGHT : Nat := 400

/-- `EDIT_PAGE_IDENTIFIER`: URL path marker of the page where the script
is disabled. -/
def EDIT_PAGE_IDENTIFIER : String := "/functions"

/-- Class of the toggle button the script creates. -/
def btnCls : String := "code-expand-btn"

/-- Class marking a CodeMirror editor root. -/
def edCls : String := "cm-editor"

/-- Class of the inner scrollable element measured on expand. -/
def scrollerCls : String := "cm-scroller"

/-- Rendering of a pixel height, as produced by the template literals of
the source. -/
def heightPx (n : Nat) : String := toString n ++ "px"

/-- Substring test, the semantics of `String.includes` of the source. -/
def strContainsSub (s pat : String) : Bool :=
  (List.range (s.length + 1)).any (fun i => pat.data.isPrefixOf (s.data.drop i))

/-- `checkIsEditPage()`: whether the current URL contains the marker. -/
def checkIsEditPage (url : String) : Bool :=
  strContainsSub url EDIT_PAGE_IDENTIFIER

-- ### The script's state and operations

/-- The module-level mutable state of the script, together with the
document it acts on.  `observed` is the `observedCodeBlocks` WeakSet,
`resizeObserved` the set of targets of `resizeObserver.observe`,
`observerAttached` the actual attachment state of the MutationObserver
on `document.body` (mirrored by the script's flag
`mutationObserverActive`), `nextId` a supply of fresh node identities
for created buttons, and `scrolls` the log of `scrollIntoView` targets. -/
structure EnhState where
  doc : Elem
  url : String
  isCurrentlyEditPage : Bool
  mutationObserverActive : Bool
  observerAttached : Bool
  observed : List Nat
  resizeObserved : List Nat
  nextId : Nat
  scrolls : List Nat

/-- The button element created by `updateCodeBlock`. -/
def mkExpandBtn (fresh : Nat) : Elem :=
  .mk fresh [btnCls] "collapsed" none 0 []

/-- `updateCodeBlock(editorRoot)`, effect on the editor root itself:
skip when a button already exists among descendants; otherwise, when the
content height exceeds the threshold, mark collapsed, constrain the
height and append a fresh button. -/
def updateCodeBlockElem (fresh : Nat) (e : Elem) : Elem :=
  if (qsa btnCls e).isEmpty then
    if COLLAPSED_HEIGHT < e.scrollHeight then
      (((e.setIdAttr "collapsed").setHeight (some (heightPx COLLAPSED_HEIGHT))).appendChild
        (mkExpandBtn fresh))
    else e
  else e

/-- `updateCodeBlock` as a state transition on the document, consuming
one fresh identity. -/
def updateCodeBlockState (σ : EnhState) (k : Nat) : EnhState :=
  { σ with doc := updAt k (updateCodeBlockElem σ.nextId) σ.doc, nextId := σ.nextId + 1 }

/-- `initializeCodeBlock(editorRoot)`: guarded by membership in the
tracked set and by the editor-root class; on success adds to the tracked
set, starts size observation and evaluates the collapse state. -/
def initializeCodeBlock (σ : EnhState) (k : Nat) : EnhState :=
  match findE k σ.doc with
  | none => σ
  | some e =>
    if σ.observed.contains k || !e.hasClass edCls then σ
    else
      updateCodeBlockState
        { σ with observed := k :: σ.observed, resizeObserved := k :: σ.resizeObserved } k

/-- `initializeAllCodeBlocks()`: the full scan-and-initialize pass. -/
def initializeAllCodeBlocks (σ : EnhState) : EnhState :=
  if σ.isCurrentlyEditPage then σ
  else ((qsDoc edCls σ.doc).map Elem.eid).foldl initializeCodeBlock σ

/-- Body of the `ResizeObserver` callback for one entry. -/
def resizeStep (σ : EnhState) (k : Nat) : EnhState :=
  match findE k σ.doc with
  | none => σ
  | some e => if e.hasClass edCls then updateCodeBlockState σ k else σ

/-- The `ResizeObserver` callback on a batch of entries. -/
def resizeCallback (σ : EnhState) (entries : List Nat) : EnhState :=
  if σ.isCurrentlyEditPage then σ
  else entries.foldl resizeStep σ

/-- Treatment of one added node inside the `MutationObserver` callback:
if it is itself an editor root, initialize it; otherwise initialize
every editor root among its descendants. -/
def mutationAddedStep (σ : EnhState) (k : Nat) : EnhState :=
  match findE k σ.doc with
  | none => σ
  | some e =>
    if e.hasClass edCls then initializeCodeBlock σ k
    else ((qsa edCls e).map Elem.eid).foldl initializeCodeBlock σ

/-- The `MutationObserver` callback on a batch of mutation records, each
carrying its list of added nodes. -/
def mutationCallback (σ : EnhState) (muts : List (List Nat)) : EnhState :=
  if σ.isCurrentlyEditPage then σ
  else muts.foldl (fun σm added => added.foldl mutationAddedStep σm) σ

/-- `onRouteChange()`: recompute the route flag; on the edit page detach
the structural observer if attached, otherwise scan and attach it if not
attached. -/
def onRouteChange (σ : EnhState) : EnhState :=
  let σ0 := { σ with isCurrentlyEditPage := checkIsEditPage σ.url }
  if σ0.isCurrentlyEditPage then
    if σ0.mutationObserverActive then
      { σ0 with mutationObserverActive := false, observerAttached := false }
    else σ0
  else
    let σ1 := initializeAllCodeBlocks σ0
    if σ1.mutationObserverActive then σ1
    else { σ1 with mutationObserverActive := true, observerAttached := true }

/-- The selector `.relative.my-2` of the collapse-scroll heuristic. -/
def msgSel (e : Elem) : Bool :=
  e.hasClass "relative" && e.hasClass "my-2"

/-- Height applied on expand: the scroll height of the first descendant
`.cm-scroller` when present, otherwise the `auto` fallback. -/
def expandHeightOf (er : Elem) : String :=
  match (qsa scrollerCls er).head? with
  | some sc => heightPx sc.scrollHeight
  | none => "auto"

/-- The document-level click listener, for a click whose target is the
element with identity `t` (the deferred animation-frame callback is run
synchronously, matching the run-to-completion model of the spec). -/
def clickHandler (σ : EnhState) (t : Nat) : EnhState :=
  match findE t σ.doc with
  | none => σ
  | some btn =>
    if !btn.hasClass btnCls then σ
    else
      match closestE (fun e => e.hasClass edCls) t σ.doc with
      | none => σ
      | some r =>
        match findE r σ.doc with
        | none => σ
        | some er =>
          if er.idAttr == "collapsed" then
            let h := expandHeightOf er
            { σ with
              doc := updAt t (Elem.setIdAttr "expanded")
                (updAt r (fun e => (e.setIdAttr "expanded").setHeight (some h)) σ.doc) }
          else
            let σ1 : EnhState :=
              { σ with
                doc := updAt t (Elem.setIdAttr "collapsed")
                  (updAt r (fun e =>
                    (e.setIdAttr "collapsed").setHeight (some (heightPx COLLAPSED_HEIGHT)))
                    σ.doc) }
            match (closestE msgSel r σ1.doc).bind (fun a => parentOf σ1.doc a) with
            | none => σ1
            | some p => { σ1 with scrolls := p :: σ1.scrolls }

/-- `init()`: initial route check, initial scan and observer start. -/
def initScript (σ : EnhState) : EnhState :=
  let σ0 := { σ with isCurrentlyEditPage := checkIsEditPage σ.url }
  if σ0.isCurrentlyEditPage then σ0
  else
    let σ1 := initializeAllCodeBlocks σ0
    { σ1 with mutationObserverActive := true, observerAttached := true }

/-- The event sources that can fire after load. -/
inductive EventOp where
  | scan : EventOp
  | resize (entries : List Nat) : EventOp
  | mutate (muts : List (List Nat)) : EventOp
  | click (t : Nat) : EventOp
  | navigate (url : String) : EventOp

/-- One event-handler invocation. -/
def step (σ : EnhState) : EventOp → EnhState
  | .scan => initializeAllCodeBlocks σ
  | .resize es => resizeCallback σ es
  | .mutate ms => mutationCallback σ ms
  | .click t => clickHandler σ t
  | .navigate u => onRouteChange { σ with url := u }

-- ### Derived observations used by the claims

/-- Number of toggle buttons attached directly to an element. -/
def btnCC (e : Elem) : Nat :=
  (e.children.filter (fun c => c.hasClass btnCls)).length

/-- No node of the subtree rooted at `e` carries the button class. -/
def btnFree (e : Elem) : Bool :=
  (allNodes e).all (fun n => !n.hasClass btnCls)

/-- Well-formedness of a state as a model of a live document: node
identities are distinct, and the fresh-identity supply is above every
identity present. -/
def WFD (d : Elem) (n : Nat) : Prop :=
  (allEids d).Nodup ∧ ∀ x ∈ allEids d, x < n

def WFdoc (σ : EnhState) : Prop := WFD σ.doc σ.nextId

-- ### Basic lemmas about the tree model

@[simp] theorem Elem.eid_mk : (Elem.mk i c a h s cs).eid = i := rfl
@[simp] theorem Elem.classes_mk : (Elem.mk i c a h s cs).classes = c := rfl
@[simp] theorem Elem.idAttr_mk : (Elem.mk i c a h s cs).idAttr = a := rfl
@[simp] theorem Elem.heightStyle_mk : (Elem.mk i c a h s cs).heightStyle = h := rfl
@[simp] theorem Elem.scrollHeight_mk : (Elem.mk i c a h s cs).scrollHeight = s := rfl
@[simp] theorem Elem.children_mk : (Elem.mk i c a h s cs).children = cs := rfl

@[simp] theorem allNodes_mk :
    allNodes (Elem.mk i c a h s cs) = Elem.mk i c a h s cs :: allNodesL cs := by
  rw [allNodes]

@[simp] theorem allNodesL_nil : allNodesL [] = [] := by rw [allNodesL]

@[simp] theorem allNodesL_cons : allNodesL (e :: es) = allNodes e ++ allNodesL es := by
  rw [allNodesL]

theorem allNodesL_append (l₁ l₂ : List Elem) :
    allNodesL (l₁ ++ l₂) = allNodesL l₁ ++ allNodesL l₂ := by
  induction l₁ with
  | nil => simp
  | cons e es ih => simp [ih]

@[simp] theorem findE_mk :
    findE k (Elem.mk i c a h s cs) =
      if i = k then some (Elem.mk i c a h s cs) else findEL k cs := by
  rw [findE]

@[simp] theorem findEL_nil : findEL k [] = none := by rw [findEL]

@[simp] theorem findEL_cons :
    findEL k (e :: es) =
      (match findE k e with
       | some r => some r
       | none => findEL k es) := by
  rw [findEL]

@[simp] theorem updAt_mk :
    updAt t f (Elem.mk i c a h s cs) =
      if i = t then f (Elem.mk i c a h s cs) else Elem.mk i c a h s (updAtL t f cs) := by
  rw [updAt]

@[simp] theorem updAtL_nil : updAtL t f [] = [] := by rw [updAtL]

@[simp] theorem updAtL_cons : updAtL t f (e :: es) = updAt t f e :: updAtL t f es := by
  rw [updAtL]

theorem self_mem_allNodes (e : Elem) : e ∈ allNodes e := by
  cases e; simp

theorem mem_allNodesL_of_mem (hc : c ∈ l) : allNodes c ⊆ allNodesL l := by
  induction l with
  | nil => cases hc
  | cons x xs ih =>
    rcases List.mem_cons.mp hc with h | h
    · subst h; intro y hy; simp [List.mem_append.mpr (Or.inl hy)]
    · intro y hy; simp [List.mem_append.mpr (Or.inr (ih h hy))]

/-- Identities of a forest. -/
def allEidsL (l : List Elem) : List Nat := (allNodesL l).map Elem.eid

@[simp] theorem allEids_mk :
    allEids (Elem.mk i c a h s cs) = i :: allEidsL cs := by
  simp [allEids, allEidsL]

@[simp] theorem allEidsL_nil : allEidsL [] = [] := by simp [allEidsL]

@[simp] theorem allEidsL_cons : allEidsL (e :: es) = allEids e ++ allEidsL es := by
  simp [allEidsL, allEids]

theorem allEidsL_append (l₁ l₂ : List Elem) :
    allEidsL (l₁ ++ l₂) = allEidsL l₁ ++ allEidsL l₂ := by
  simp [allEidsL, allNodesL_append]

mutual

theorem updAt_id_of_not_mem (t : Nat) (f : Elem → Elem) :
    ∀ (e : Elem), t ∉ allEids e → updAt t f e = e
  | .mk i c a h s cs, ht => by
    have hi : i ≠ t := by
      intro h; exact ht (by simp [h.symm])
    have hcs : t ∉ allEidsL cs := by
      intro h; exact ht (by simp [h])
    simp [hi, updAtL_id_of_not_mem t f cs hcs]

theorem updAtL_id_of_not_mem (t : Nat) (f : Elem → Elem) :
    ∀ (l : List Elem), t ∉ allEidsL l → updAtL t f l = l
  | [], _ => rfl
  | e :: es, ht => by
    have h1 : t ∉ allEids e := by
      intro h; exact ht (by simp [h])
    have h2 : t ∉ allEidsL es := by
      intro h; exact ht (by simp [h])
    simp [updAt_id_of_not_mem t f e h1, updAtL_id_of_not_mem t f es h2]

end

mutual

theorem findE_eq_none_iff :
    ∀ (e : Elem), findE k e = none ↔ k ∉ allEids e
  | .mk i c a h s cs => by
    by_cases hi : i = k
    · simp [hi]
    · simp [hi, findEL_eq_none_iff cs, Ne.symm hi]

theorem findEL_eq_none_iff :
    ∀ (l : List Elem), findEL k l = none ↔ k ∉ allEidsL l
  | [] => by simp
  | e :: es => by
    simp only [findEL_cons, allEidsL_cons, List.mem_append]
    cases hfe : findE k e with
    | some r =>
      have hk : k ∈ allEids e := by
        by_contra hk
        rw [(findE_eq_none_iff e).mpr hk] at hfe
        exact Option.noConfusion hfe
      simp [hk]
    | none =>
      simp [not_or, findEL_eq_none_iff es, (findE_eq_none_iff e).mp hfe]

end

/-- Common shape of every tree update the script performs: fields other
than the marker and the height are preserved, and the child list is
extended by at most one fresh button leaf (identities drawn from `N`). -/
def TameF (N : List Nat) (f : Elem → Elem) : Prop :=
  ∀ e, (f e).eid = e.eid ∧ (f e).classes = e.classes ∧ (f e).scrollHeight = e.scrollHeight ∧
    ∃ bs, (f e).children = e.children ++ bs ∧ bs.length ≤ 1 ∧
      ∀ b ∈ bs, b.eid ∈ N ∧ b.classes = [btnCls] ∧ b.children = []

/-- Updates of the click handler: attribute and style only. -/
def FieldsOnly (f : Elem → Elem) : Prop :=
  ∀ e, (f e).eid = e.eid ∧ (f e).classes = e.classes ∧ (f e).scrollHeight = e.scrollHeight ∧
    (f e).children = e.children

theorem TameF.of_fieldsOnly (h : FieldsOnly f) : TameF N f := by
  intro e
  obtain ⟨h1, h2, h3, h4⟩ := h e
  exact ⟨h1, h2, h3, [], by simp [h4], by simp, by simp⟩

theorem fieldsOnly_setIdAttr : FieldsOnly (Elem.setIdAttr a) := by
  intro e; cases e; simp [Elem.setIdAttr]

theorem fieldsOnly_setIdAttr_setHeight :
    FieldsOnly (fun e => (e.setIdAttr a).setHeight v) := by
  intro e; cases e; simp [Elem.setIdAttr, Elem.setHeight]

theorem tameF_updateCodeBlockElem : TameF [n] (updateCodeBlockElem n) := by
  intro e
  cases e with
  | mk i c a h s cs =>
    by_cases h1 : (qsa btnCls (Elem.mk i c a h s cs)).isEmpty
    · by_cases h2 : COLLAPSED_HEIGHT < s
      · have he : updateCodeBlockElem n (Elem.mk i c a h s cs) =
            Elem.mk i c "collapsed" (some (heightPx COLLAPSED_HEIGHT)) s
              (cs ++ [mkExpandBtn n]) := by
          unfold updateCodeBlockElem
          rw [if_pos h1, if_pos (by simpa using h2)]
          rfl
        rw [he]
        refine ⟨rfl, rfl, rfl, [mkExpandBtn n], rfl, by simp, ?_⟩
        intro b hb
        simp only [List.mem_singleton] at hb
        subst hb
        exact ⟨by simp [mkExpandBtn], rfl, rfl⟩
      · have he : updateCodeBlockElem n (Elem.mk i c a h s cs) = Elem.mk i c a h s cs := by
          unfold updateCodeBlockElem
          rw [if_pos h1, if_neg (by simpa using h2)]
        rw [he]
        exact ⟨rfl, rfl, rfl, [], by simp, by simp, by simp⟩
    · have he : updateCodeBlockElem n (Elem.mk i c a h s cs) = Elem.mk i c a h s cs := by
        unfold updateCodeBlockElem
        rw [if_neg h1]
      rw [he]
      exact ⟨rfl, rfl, rfl, [], by simp, by simp, by simp⟩

theorem allEids_expand (e : Elem) : allEids e = e.eid :: allEidsL e.children := by
  cases e; simp

theorem findE_expand (e : Elem) :
    findE k e = if e.eid = k then some e else findEL k e.children := by
  cases e; simp

theorem allNodesL_of_leaves (l : List Elem) (h : ∀ b ∈ l, b.children = []) :
    allNodesL l = l := by
  induction l with
  | nil => simp
  | cons b bs ih =>
    have hb : allNodes b = [b] := by
      cases b with
      | mk i c a hh s cs =>
        have : cs = [] := h _ (List.mem_cons_self _ _)
        simp [this]
    simp [hb, ih (fun x hx => h x (List.mem_cons_of_mem _ hx))]

theorem findEL_append (l₁ l₂ : List Elem) :
    findEL k (l₁ ++ l₂) =
      (match findEL k l₁ with
       | some r => some r
       | none => findEL k l₂) := by
  induction l₁ with
  | nil => simp
  | cons e es ih =>
    simp only [List.cons_append, findEL_cons, ih]
    cases findE k e <;> simp


mutual

theorem allEids_updAt_subset (hT : TameF N f) :
    ∀ (e : Elem), ∀ x ∈ allEids (updAt t f e), x ∈ allEids e ∨ x ∈ N
  | .mk i c a h s cs => by
    intro x hx
    by_cases hi : i = t
    · rw [updAt_mk, if_pos hi] at hx
      obtain ⟨h1, h2, h3, bs, h4, _, h6⟩ := hT (Elem.mk i c a h s cs)
      rw [allEids_expand (f (Elem.mk i c a h s cs)), h1, h4] at hx
      simp only [Elem.children_mk, Elem.eid_mk] at hx
      rw [allEidsL_append] at hx
      rcases List.mem_cons.mp hx with hx | hx
      · exact Or.inl (by simp [hx])
      · rcases List.mem_append.mp hx with hx | hx
        · exact Or.inl (by simp [hx])
        · right
          have hbs : allNodesL bs = bs := allNodesL_of_leaves bs (fun b hb => (h6 b hb).2.2)
          rw [allEidsL, hbs] at hx
          obtain ⟨b, hb, hbx⟩ := List.mem_map.mp hx
          exact hbx ▸ (h6 b hb).1
    · rw [updAt_mk, if_neg hi] at hx
      rcases List.mem_cons.mp (by simpa using hx) with hx' | hx'
      · exact Or.inl (by simp [hx'])
      · rcases allEidsL_updAtL_subset hT cs x hx' with h | h
        · exact Or.inl (by simp [h])
        · exact Or.inr h

theorem allEidsL_updAtL_subset (hT : TameF N f) :
    ∀ (l : List Elem), ∀ x ∈ allEidsL (updAtL t f l), x ∈ allEidsL l ∨ x ∈ N
  | [] => by simp
  | e :: es => by
    intro x hx
    rw [updAtL_cons, allEidsL_cons] at hx
    rcases List.mem_append.mp hx with hx | hx
    · rcases allEids_updAt_subset hT e x hx with h | h
      · exact Or.inl (by simp [h])
      · exact Or.inr h
    · rcases allEidsL_updAtL_subset hT es x hx with h | h
      · exact Or.inl (by simp [h])
      · exact Or.inr h

end

theorem updAt_classes_eid (hT : TameF N f) (e : Elem) :
    (updAt t f e).classes = e.classes ∧ (updAt t f e).eid = e.eid := by
  cases e with
  | mk i c a h s cs =>
    by_cases hi : i = t
    · rw [updAt_mk, if_pos hi]
      exact ⟨(hT _).2.1, (hT _).1⟩
    · rw [updAt_mk, if_neg hi]
      exact ⟨rfl, rfl⟩

@[simp] theorem btnCC_mk :
    btnCC (Elem.mk i c a h s cs) = (cs.filter (fun c => c.hasClass btnCls)).length := rfl

theorem filter_updAtL_len (hT : TameF N f) (cs : List Elem) :
    ((updAtL t f cs).filter (fun c => c.hasClass btnCls)).length =
      (cs.filter (fun c => c.hasClass btnCls)).length := by
  induction cs with
  | nil => simp
  | cons x xs ih =>
    have hcls : (updAt t f x).hasClass btnCls = x.hasClass btnCls := by
      unfold Elem.hasClass
      rw [(updAt_classes_eid hT x).1]
    rw [updAtL_cons, List.filter_cons, List.filter_cons, hcls]
    cases x.hasClass btnCls <;> simp [ih]

/-- Shallow equality of two nodes: all fields and attached-button count. -/
def shEq (e e' : Elem) : Prop :=
  e'.eid = e.eid ∧ e'.classes = e.classes ∧ e'.idAttr = e.idAttr ∧
  e'.heightStyle = e.heightStyle ∧ e'.scrollHeight = e.scrollHeight ∧ btnCC e' = btnCC e

theorem shEq_refl (e : Elem) : shEq e e := ⟨rfl, rfl, rfl, rfl, rfl, rfl⟩

mutual

theorem findE_updAt_ne (hT : TameF N f) (hk : k ≠ t) (hkN : k ∉ N) :
    ∀ (e eo : Elem), findE k e = some eo →
      ∃ e', findE k (updAt t f e) = some e' ∧ shEq eo e' ∧
        ∀ x ∈ allEids e', x ∈ allEids eo ∨ x ∈ N
  | .mk i c a h s cs, eo, hfo => by
    by_cases hik : i = k
    · rw [findE_mk, if_pos hik] at hfo
      cases hfo
      have hit : i ≠ t := by rw [hik]; exact hk
      rw [updAt_mk, if_neg hit]
      refine ⟨Elem.mk i c a h s (updAtL t f cs), by rw [findE_mk, if_pos hik], ?_, ?_⟩
      · exact ⟨rfl, rfl, rfl, rfl, rfl, by simp [filter_updAtL_len hT cs]⟩
      · intro x hx
        rcases List.mem_cons.mp (by simpa using hx) with h | h
        · exact Or.inl (by simp [h])
        · rcases allEidsL_updAtL_subset hT cs x h with h' | h'
          · exact Or.inl (by simp [h'])
          · exact Or.inr h'
    · rw [findE_mk, if_neg hik] at hfo
      by_cases hit : i = t
      · rw [updAt_mk, if_pos hit]
        obtain ⟨h1, h2, h3, bs, h4, h5, h6⟩ := hT (Elem.mk i c a h s cs)
        have hfind : findE k (f (Elem.mk i c a h s cs)) = some eo := by
          rw [findE_expand, h1]
          simp only [Elem.eid_mk]
          rw [if_neg hik, h4]
          simp only [Elem.children_mk]
          rw [findEL_append, hfo]
        exact ⟨eo, hfind, shEq_refl eo, fun x hx => Or.inl hx⟩
      · rw [updAt_mk, if_neg hit]
        obtain ⟨e', he', hsh, hsub⟩ := findEL_updAtL_ne hT hk hkN cs eo hfo
        exact ⟨e', by rw [findE_mk, if_neg hik]; exact he', hsh, hsub⟩

theorem findEL_updAtL_ne (hT : TameF N f) (hk : k ≠ t) (hkN : k ∉ N) :
    ∀ (l : List Elem) (eo : Elem), findEL k l = some eo →
      ∃ e', findEL k (updAtL t f l) = some e' ∧ shEq eo e' ∧
        ∀ x ∈ allEids e', x ∈ allEids eo ∨ x ∈ N
  | [], eo, hfo => by simp at hfo
  | e :: es, eo, hfo => by
    rw [findEL_cons] at hfo
    cases hfe : findE k e with
    | some r =>
      rw [hfe] at hfo
      cases hfo
      obtain ⟨e', he', hsh, hsub⟩ := findE_updAt_ne hT hk hkN e eo hfe
      exact ⟨e', by rw [updAtL_cons, findEL_cons, he'], hsh, hsub⟩
    | none =>
      rw [hfe] at hfo
      have hnone : findE k (updAt t f e) = none := by
        rw [findE_eq_none_iff]
        intro hmem
        rcases allEids_updAt_subset hT e k hmem with h | h
        · exact ((findE_eq_none_iff e).mp hfe) h
        · exact hkN h
      obtain ⟨e', he', hsh, hsub⟩ := findEL_updAtL_ne hT hk hkN es eo hfo
      exact ⟨e', by rw [updAtL_cons, findEL_cons, hnone]; exact he', hsh, hsub⟩

end

mutual

theorem findE_updAt_self (hT : TameF N f) :
    ∀ (e eo : Elem), findE t e = some eo → findE t (updAt t f e) = some (f eo)
  | .mk i c a h s cs, eo, hfo => by
    by_cases hit : i = t
    · rw [findE_mk, if_pos hit] at hfo
      cases hfo
      rw [updAt_mk, if_pos hit, findE_expand, (hT _).1]
      simp only [Elem.eid_mk]
      rw [if_pos hit]
    · rw [findE_mk, if_neg hit] at hfo
      rw [updAt_mk, if_neg hit, findE_mk, if_neg hit]
      exact findEL_updAtL_self hT cs eo hfo

theorem findEL_updAtL_self (hT : TameF N f) :
    ∀ (l : List Elem) (eo : Elem), findEL t l = some eo →
      findEL t (updAtL t f l) = some (f eo)
  | [], eo, hfo => by simp at hfo
  | e :: es, eo, hfo => by
    rw [findEL_cons] at hfo
    cases hfe : findE t e with
    | some r =>
      rw [hfe] at hfo
      cases hfo
      rw [updAtL_cons, findEL_cons, findE_updAt_self hT e eo hfe]
    | none =>
      rw [hfe] at hfo
      rw [updAtL_cons, findEL_cons,
        updAt_id_of_not_mem t f e ((findE_eq_none_iff e).mp hfe), hfe]
      exact findEL_updAtL_self hT es eo hfo

end

mutual

theorem findE_updAt_outside (hT : TameF N f) (hkN : k ∉ N) :
    ∀ (e eo : Elem), findE k e = some eo → t ∉ allEids eo →
      findE k (updAt t f e) = some eo
  | .mk i c a h s cs, eo, hfo, ht => by
    by_cases hik : i = k
    · rw [findE_mk, if_pos hik] at hfo
      cases hfo
      rw [updAt_id_of_not_mem t f _ ht, findE_mk, if_pos hik]
    · rw [findE_mk, if_neg hik] at hfo
      by_cases hit : i = t
      · rw [updAt_mk, if_pos hit]
        obtain ⟨h1, h2, h3, bs, h4, h5, h6⟩ := hT (Elem.mk i c a h s cs)
        rw [findE_expand, h1]
        simp only [Elem.eid_mk]
        rw [if_neg hik, h4]
        simp only [Elem.children_mk]
        rw [findEL_append, hfo]
      · rw [updAt_mk, if_neg hit, findE_mk, if_neg hik]
        exact findEL_updAtL_outside hT hkN cs eo hfo ht

theorem findEL_updAtL_outside (hT : TameF N f) (hkN : k ∉ N) :
    ∀ (l : List Elem) (eo : Elem), findEL k l = some eo → t ∉ allEids eo →
      findEL k (updAtL t f l) = some eo
  | [], eo, hfo, _ => by simp at hfo
  | e :: es, eo, hfo, ht => by
    rw [findEL_cons] at hfo
    cases hfe : findE k e with
    | some r =>
      rw [hfe] at hfo
      cases hfo
      rw [updAtL_cons, findEL_cons, findE_updAt_outside hT hkN e eo hfe ht]
    | none =>
      rw [hfe] at hfo
      have hnone : findE k (updAt t f e) = none := by
        rw [findE_eq_none_iff]
        intro hmem
        rcases allEids_updAt_subset hT e k hmem with h | h
        · exact ((findE_eq_none_iff e).mp hfe) h
        · exact hkN h
      rw [updAtL_cons, findEL_cons, hnone]
      exact findEL_updAtL_outside hT hkN es eo hfo ht

end

mutual

theorem findE_some_props :
    ∀ (e eo : Elem), findE k e = some eo → eo.eid = k ∧ eo ∈ allNodes e
  | .mk i c a h s cs, eo, hfo => by
    by_cases hik : i = k
    · rw [findE_mk, if_pos hik] at hfo
      cases hfo
      exact ⟨hik, self_mem_allNodes _⟩
    · rw [findE_mk, if_neg hik] at hfo
      obtain ⟨h1, h2⟩ := findEL_some_props cs eo hfo
      exact ⟨h1, by simp [h2]⟩

theorem findEL_some_props :
    ∀ (l : List Elem) (eo : Elem), findEL k l = some eo → eo.eid = k ∧ eo ∈ allNodesL l
  | [], eo, hfo => by simp at hfo
  | e :: es, eo, hfo => by
    rw [findEL_cons] at hfo
    cases hfe : findE k e with
    | some r =>
      rw [hfe] at hfo
      cases hfo
      obtain ⟨h1, h2⟩ := findE_some_props e eo hfe
      exact ⟨h1, by simp [h2]⟩
    | none =>
      rw [hfe] at hfo
      obtain ⟨h1, h2⟩ := findEL_some_props es eo hfo
      exact ⟨h1, by simp [h2]⟩

end

mutual

theorem allNodes_trans :
    ∀ (e x : Elem), x ∈ allNodes e → ∀ y ∈ allNodes x, y ∈ allNodes e
  | .mk i c a h s cs, x, hx, y, hy => by
    rcases List.mem_cons.mp (by simpa using hx) with hh | hh
    · subst hh
      simpa using hy
    · simp [allNodesL_trans cs x hh y hy]

theorem allNodesL_trans :
    ∀ (l : List Elem) (x : Elem), x ∈ allNodesL l → ∀ y ∈ allNodes x, y ∈ allNodesL l
  | [], x, hx, _, _ => by simp at hx
  | e :: es, x, hx, y, hy => by
    rcases List.mem_append.mp (by simpa using hx) with hh | hh
    · simp [allNodes_trans e x hh y hy]
    · simp [allNodesL_trans es x hh y hy]

end

theorem allEids_subset_of_mem_allNodesL (hb : b ∈ allNodesL l) :
    ∀ x ∈ allEids b, x ∈ allEidsL l := by
  intro x hx
  obtain ⟨y, hy, hyx⟩ := List.mem_map.mp hx
  exact List.mem_map.mpr ⟨y, allNodesL_trans l b hb y hy, hyx⟩

theorem eid_mem_allEids (hb : b ∈ allNodes e) : b.eid ∈ allEids e :=
  List.mem_map.mpr ⟨b, hb, rfl⟩

mutual

theorem nodup_allEids_updAt (hT : TameF N f) :
    ∀ (e : Elem), (allEids e).Nodup → (∀ n ∈ N, n ∉ allEids e) →
      (allEids (updAt t f e)).Nodup
  | .mk i c a h s cs, hnd, hN => by
    rw [allEids_mk, List.nodup_cons] at hnd
    by_cases hit : i = t
    · rw [updAt_mk, if_pos hit]
      obtain ⟨h1, h2, h3, bs, h4, h5, h6⟩ := hT (Elem.mk i c a h s cs)
      rw [allEids_expand, h1, h4]
      simp only [Elem.eid_mk, Elem.children_mk]
      rw [allEidsL_append]
      have hbs : allNodesL bs = bs := allNodesL_of_leaves bs (fun x hx => (h6 x hx).2.2)
      rw [show allEidsL bs = bs.map Elem.eid from by rw [allEidsL, hbs]]
      match bs, h5 with
      | [], _ => simpa using And.intro hnd.1 hnd.2
      | [b], _ =>
        have hbN : b.eid ∈ N := (h6 b (by simp)).1
        have hbn : b.eid ∉ allEids (Elem.mk i c a h s cs) := hN b.eid hbN
        rw [allEids_mk] at hbn
        simp only [List.map_singleton]
        rw [List.nodup_cons]
        constructor
        · intro hmem
          rcases List.mem_append.mp hmem with hm | hm
          · exact hnd.1 hm
          · exact hbn (by simp [List.mem_singleton.mp hm])
        · rw [List.nodup_append]
          refine ⟨hnd.2, List.nodup_singleton _, ?_⟩
          intro x hx hx'
          rw [List.mem_singleton] at hx'
          subst hx'
          exact hbn (by simp [hx])
    · rw [updAt_mk, if_neg hit, allEids_mk, List.nodup_cons]
      constructor
      · intro hmem
        rcases allEidsL_updAtL_subset hT cs i hmem with hm | hm
        · exact hnd.1 hm
        · exact hN i hm (by simp)
      · exact nodup_allEidsL_updAtL hT cs hnd.2
          (fun n hn hmem => hN n hn (by simp [hmem]))

theorem nodup_allEidsL_updAtL (hT : TameF N f) :
    ∀ (l : List Elem), (allEidsL l).Nodup → (∀ n ∈ N, n ∉ allEidsL l) →
      (allEidsL (updAtL t f l)).Nodup
  | [], _, _ => by simp
  | e :: es, hnd, hN => by
    rw [allEidsL_cons, List.nodup_append] at hnd
    obtain ⟨hnd1, hnd2, hdisj⟩ := hnd
    rw [updAtL_cons, allEidsL_cons, List.nodup_append]
    by_cases hte : t ∈ allEids e
    · have hes : t ∉ allEidsL es := fun hmem => hdisj hte hmem
      rw [updAtL_id_of_not_mem t f es hes]
      refine ⟨nodup_allEids_updAt hT e hnd1 (fun n hn hm => hN n hn (by simp [hm])),
        hnd2, ?_⟩
      intro x hx hx'
      rcases allEids_updAt_subset hT e x hx with hm | hm
      · exact hdisj hm hx'
      · exact hN x hm (by simp [hx'])
    · rw [updAt_id_of_not_mem t f e hte]
      refine ⟨hnd1,
        nodup_allEidsL_updAtL hT es hnd2 (fun n hn hm => hN n hn (by simp [hm])), ?_⟩
      intro x hx hx'
      rcases allEidsL_updAtL_subset hT es x hx' with hm | hm
      · exact hdisj hx hm
      · exact hN x hm (by simp [hx])

end

mutual

theorem pairwise_allNodes :
    ∀ (e : Elem), (allEids e).Nodup →
      (allNodes e).Pairwise (fun a b => a.eid ∉ allEids b)
  | .mk i c a h s cs, hnd => by
    rw [allEids_mk, List.nodup_cons] at hnd
    rw [allNodes_mk, List.pairwise_cons]
    constructor
    · intro b hb hmem
      exact hnd.1 (allEids_subset_of_mem_allNodesL hb _ hmem)
    · exact pairwise_allNodesL cs hnd.2

theorem pairwise_allNodesL :
    ∀ (l : List Elem), (allEidsL l).Nodup →
      (allNodesL l).Pairwise (fun a b => a.eid ∉ allEids b)
  | [], _ => by simp
  | e :: es, hnd => by
    rw [allEidsL_cons, List.nodup_append] at hnd
    obtain ⟨hnd1, hnd2, hdisj⟩ := hnd
    rw [allNodesL_cons, List.pairwise_append]
    refine ⟨pairwise_allNodes e hnd1, pairwise_allNodesL es hnd2, ?_⟩
    intro x hx y hy hmem
    exact hdisj (eid_mem_allEids hx) (allEids_subset_of_mem_allNodesL hy _ hmem)

end

theorem allNodes_expand (e : Elem) : allNodes e = e :: allNodesL e.children := by
  cases e; simp

theorem hasClass_congr (hc : Elem.classes e' = Elem.classes e) :
    Elem.hasClass cls e' = Elem.hasClass cls e := by
  unfold Elem.hasClass
  rw [hc]

theorem hasClass_btnLeaf (hc : Elem.classes b = [btnCls]) (hcn : cls ≠ btnCls) :
    Elem.hasClass cls b = false := by
  unfold Elem.hasClass
  rw [hc]
  simp only [List.contains_cons, List.contains_nil, Bool.or_false]
  exact beq_eq_false_iff_ne.mpr hcn

mutual

theorem qsEids_updAt (hT : TameF N f) (hcn : cls ≠ btnCls) :
    ∀ (e : Elem),
      ((allNodes (updAt t f e)).filter (fun n => n.hasClass cls)).map Elem.eid =
        ((allNodes e).filter (fun n => n.hasClass cls)).map Elem.eid
  | .mk i c a h s cs => by
    by_cases hit : i = t
    · rw [updAt_mk, if_pos hit]
      obtain ⟨h1, h2, h3, bs, h4, h5, h6⟩ := hT (Elem.mk i c a h s cs)
      have hbs : allNodesL bs = bs := allNodesL_of_leaves bs (fun x hx => (h6 x hx).2.2)
      rw [allNodes_expand (f (Elem.mk i c a h s cs)), h4]
      simp only [Elem.children_mk]
      rw [allNodesL_append, hbs, allNodes_mk]
      rw [List.filter_cons, List.filter_cons, List.filter_append]
      have hbsf : bs.filter (fun n => n.hasClass cls) = [] := by
        rw [List.filter_eq_nil]
        intro b hb
        simp [hasClass_btnLeaf (h6 b hb).2.1 hcn]
      rw [hbsf, List.append_nil]
      have hpe : (f (Elem.mk i c a h s cs)).hasClass cls =
          (Elem.mk i c a h s cs).hasClass cls := hasClass_congr h2
      rw [hpe]
      cases (Elem.mk i c a h s cs).hasClass cls with
      | true => simp [h1]
      | false => simp
    · rw [updAt_mk, if_neg hit, allNodes_mk, allNodes_mk]
      rw [List.filter_cons, List.filter_cons]
      have : (Elem.mk i c a h s (updAtL t f cs)).hasClass cls =
          (Elem.mk i c a h s cs).hasClass cls := by
        unfold Elem.hasClass
        simp
      rw [this]
      cases (Elem.mk i c a h s cs).hasClass cls with
      | true => simp [qsEidsL_updAtL hT hcn cs]
      | false => simp [qsEidsL_updAtL hT hcn cs]

theorem qsEidsL_updAtL (hT : TameF N f) (hcn : cls ≠ btnCls) :
    ∀ (l : List Elem),
      ((allNodesL (updAtL t f l)).filter (fun n => n.hasClass cls)).map Elem.eid =
        ((allNodesL l).filter (fun n => n.hasClass cls)).map Elem.eid
  | [] => by simp
  | e :: es => by
    rw [updAtL_cons, allNodesL_cons, allNodesL_cons, List.filter_append,
      List.filter_append, List.map_append, List.map_append,
      qsEids_updAt hT hcn e, qsEidsL_updAtL hT hcn es]

end

theorem btnFree_sub (hd : btnFree d = true) (he : e ∈ allNodes d) : btnFree e = true := by
  unfold btnFree at hd ⊢
  rw [List.all_eq_true] at hd ⊢
  intro x hx
  exact hd x (allNodes_trans d e he x hx)

theorem btnFree_qsa_empty (he : btnFree e = true) : (qsa btnCls e).isEmpty = true := by
  unfold btnFree at he
  rw [List.all_eq_true] at he
  unfold qsa
  rw [List.isEmpty_iff, List.filter_eq_nil]
  intro b hb
  have : b ∈ allNodes e := by
    rw [allNodes_expand]
    exact List.mem_cons_of_mem _ hb
  simpa using he b this

theorem btnFree_btnCC (he : btnFree e = true) : btnCC e = 0 := by
  unfold btnFree at he
  rw [List.all_eq_true] at he
  cases e with
  | mk i c a h s cs =>
    rw [btnCC_mk]
    rw [List.length_eq_zero, List.filter_eq_nil]
    intro b hb
    have hbn : b ∈ allNodes (Elem.mk i c a h s cs) := by
      rw [allNodes_mk]
      exact List.mem_cons_of_mem _ (mem_allNodesL_of_mem hb (self_mem_allNodes b))
    simpa using he b hbn


-- ### State-level step lemmas

theorem WFD_upd (hwf : WFD d n) :
    WFD (updAt k (updateCodeBlockElem n) d) (n + 1) := by
  obtain ⟨hnd, hb⟩ := hwf
  constructor
  · exact nodup_allEids_updAt tameF_updateCodeBlockElem d hnd
      (fun m hm hmem => by
        rw [List.mem_singleton] at hm
        subst hm
        exact absurd (hb _ hmem) (lt_irrefl _))
  · intro x hx
    rcases allEids_updAt_subset tameF_updateCodeBlockElem d x hx with hm | hm
    · exact Nat.lt_succ_of_lt (hb x hm)
    · rw [List.mem_singleton] at hm
      subst hm
      exact Nat.lt_succ_self _

theorem mem_allEids_of_findE (hfo : findE k d = some e) : k ∈ allEids d := by
  obtain ⟨h1, h2⟩ := findE_some_props d e hfo
  exact h1 ▸ eid_mem_allEids h2

theorem findE_ne_nextId (hwf : WFD d n) (hfo : findE k d = some e) : k ∉ [n] := by
  rw [List.mem_singleton]
  intro hk
  exact absurd (hwf.2 k (mem_allEids_of_findE hfo)) (by rw [hk]; exact lt_irrefl _)

theorem initializeCodeBlock_skip (hfo : findE k σ.doc = none) :
    initializeCodeBlock σ k = σ := by
  unfold initializeCodeBlock
  rw [hfo]

theorem initializeCodeBlock_skip_obs (hfo : findE k σ.doc = some e)
    (hobs : k ∈ σ.observed) :
    initializeCodeBlock σ k = σ := by
  unfold initializeCodeBlock
  simp only [hfo]
  rw [if_pos (by simp [hobs])]

theorem initializeCodeBlock_skip_cls (hfo : findE k σ.doc = some e)
    (hcls : e.hasClass edCls = false) :
    initializeCodeBlock σ k = σ := by
  unfold initializeCodeBlock
  simp only [hfo]
  rw [if_pos (by simp [hcls])]

theorem initializeCodeBlock_self (hfo : findE k σ.doc = some e)
    (hcls : e.hasClass edCls = true) (hobs : k ∉ σ.observed) :
    initializeCodeBlock σ k =
      { σ with doc := updAt k (updateCodeBlockElem σ.nextId) σ.doc,
               observed := k :: σ.observed,
               resizeObserved := k :: σ.resizeObserved,
               nextId := σ.nextId + 1 } := by
  unfold initializeCodeBlock
  simp only [hfo]
  rw [if_neg (by simp [hobs, hcls])]
  rfl

theorem initializeCodeBlock_cases (σ : EnhState) (k : Nat) :
    initializeCodeBlock σ k = σ ∨
    ∃ e, findE k σ.doc = some e ∧ e.hasClass edCls = true ∧ k ∉ σ.observed ∧
      initializeCodeBlock σ k =
        { σ with doc := updAt k (updateCodeBlockElem σ.nextId) σ.doc,
                 observed := k :: σ.observed,
                 resizeObserved := k :: σ.resizeObserved,
                 nextId := σ.nextId + 1 } := by
  cases hfo : findE k σ.doc with
  | none => exact Or.inl (initializeCodeBlock_skip hfo)
  | some e =>
    by_cases hobs : k ∈ σ.observed
    · exact Or.inl (initializeCodeBlock_skip_obs hfo hobs)
    · cases hcls : e.hasClass edCls with
      | false => exact Or.inl (initializeCodeBlock_skip_cls hfo hcls)
      | true =>
        exact Or.inr ⟨e, rfl, hcls, hobs, initializeCodeBlock_self hfo hcls hobs⟩

theorem initializeCodeBlock_WF (hwf : WFdoc σ) : WFdoc (initializeCodeBlock σ k) := by
  rcases initializeCodeBlock_cases σ k with h | ⟨e, _, _, _, h⟩
  · rw [h]; exact hwf
  · rw [h]; exact WFD_upd hwf

theorem initializeCodeBlock_shell (σ : EnhState) (k : Nat) :
    (initializeCodeBlock σ k).url = σ.url ∧
    (initializeCodeBlock σ k).isCurrentlyEditPage = σ.isCurrentlyEditPage ∧
    (initializeCodeBlock σ k).mutationObserverActive = σ.mutationObserverActive ∧
    (initializeCodeBlock σ k).observerAttached = σ.observerAttached ∧
    (initializeCodeBlock σ k).scrolls = σ.scrolls ∧
    σ.nextId ≤ (initializeCodeBlock σ k).nextId := by
  rcases initializeCodeBlock_cases σ k with h | ⟨e, _, _, _, h⟩
  · rw [h]; exact ⟨rfl, rfl, rfl, rfl, rfl, le_refl _⟩
  · rw [h]; exact ⟨rfl, rfl, rfl, rfl, rfl, Nat.le_succ _⟩

theorem initializeCodeBlock_tracks (σ : EnhState) (k : Nat) :
    ((initializeCodeBlock σ k).observed = σ.observed ∧
      (initializeCodeBlock σ k).resizeObserved = σ.resizeObserved) ∨
    ((initializeCodeBlock σ k).observed = k :: σ.observed ∧
      (initializeCodeBlock σ k).resizeObserved = k :: σ.resizeObserved) := by
  rcases initializeCodeBlock_cases σ k with h | ⟨e, _, _, _, h⟩
  · rw [h]; exact Or.inl ⟨rfl, rfl⟩
  · rw [h]; exact Or.inr ⟨rfl, rfl⟩

theorem initializeCodeBlock_findE_ne (hwf : WFdoc σ) (hne : k' ≠ k)
    (hfo : findE k' σ.doc = some e) :
    ∃ e', findE k' (initializeCodeBlock σ k).doc = some e' ∧ shEq e e' ∧
      ∀ x ∈ allEids e', x ∈ allEids e ∨ x ∈ [σ.nextId] := by
  rcases initializeCodeBlock_cases σ k with h | ⟨e2, _, _, _, h⟩
  · rw [h]; exact ⟨e, hfo, shEq_refl e, fun x hx => Or.inl hx⟩
  · rw [h]
    exact findE_updAt_ne tameF_updateCodeBlockElem hne
      (findE_ne_nextId hwf hfo) σ.doc e hfo

theorem initializeCodeBlock_findE_outside (hwf : WFdoc σ)
    (hfo : findE k' σ.doc = some e) (hout : k ∉ allEids e) :
    findE k' (initializeCodeBlock σ k).doc = some e := by
  rcases initializeCodeBlock_cases σ k with h | ⟨e2, _, _, _, h⟩
  · rw [h]; exact hfo
  · rw [h]
    exact findE_updAt_outside tameF_updateCodeBlockElem
      (findE_ne_nextId hwf hfo) σ.doc e hfo hout

theorem shEq_trans (h1 : shEq e e1) (h2 : shEq e1 e2) : shEq e e2 := by
  obtain ⟨a1, b1, c1, d1, f1, g1⟩ := h1
  obtain ⟨a2, b2, c2, d2, f2, g2⟩ := h2
  exact ⟨a2.trans a1, b2.trans b1, c2.trans c1, d2.trans d1, f2.trans f1, g2.trans g1⟩

theorem updateCodeBlockElem_short (hq : (qsa btnCls e).isEmpty = true)
    (hs : ¬ COLLAPSED_HEIGHT < e.scrollHeight) :
    updateCodeBlockElem n e = e := by
  unfold updateCodeBlockElem
  rw [if_pos hq, if_neg hs]

theorem updateCodeBlockElem_tall (hq : (qsa btnCls e).isEmpty = true)
    (hs : COLLAPSED_HEIGHT < e.scrollHeight) :
    (updateCodeBlockElem n e).eid = e.eid ∧
    (updateCodeBlockElem n e).classes = e.classes ∧
    (updateCodeBlockElem n e).scrollHeight = e.scrollHeight ∧
    (updateCodeBlockElem n e).idAttr = "collapsed" ∧
    (updateCodeBlockElem n e).heightStyle = some (heightPx COLLAPSED_HEIGHT) ∧
    btnCC (updateCodeBlockElem n e) = btnCC e + 1 := by
  have he : updateCodeBlockElem n e =
      ((e.setIdAttr "collapsed").setHeight (some (heightPx COLLAPSED_HEIGHT))).appendChild
        (mkExpandBtn n) := by
    unfold updateCodeBlockElem
    rw [if_pos hq, if_pos hs]
  rw [he]
  cases e with
  | mk i c a h s cs =>
    refine ⟨rfl, rfl, rfl, rfl, rfl, ?_⟩
    show ((cs ++ [mkExpandBtn n]).filter (fun x => x.hasClass btnCls)).length = _
    rw [List.filter_append]
    have : (mkExpandBtn n).hasClass btnCls = true := by
      unfold mkExpandBtn Elem.hasClass
      simp
    simp [this]

theorem subEids_eq (hfo : findE k d = some e) : subEids d k = allEids e := by
  unfold subEids
  rw [hfo]

-- ### Fold lemmas for the scan

theorem foldInit_WF (L : List Nat) :
    ∀ (σ : EnhState), WFdoc σ → WFdoc (L.foldl initializeCodeBlock σ) := by
  induction L with
  | nil => intro σ h; exact h
  | cons j L ih => intro σ h; exact ih _ (initializeCodeBlock_WF h)

theorem foldInit_shell (L : List Nat) :
    ∀ (σ : EnhState),
      (L.foldl initializeCodeBlock σ).url = σ.url ∧
      (L.foldl initializeCodeBlock σ).isCurrentlyEditPage = σ.isCurrentlyEditPage ∧
      (L.foldl initializeCodeBlock σ).mutationObserverActive = σ.mutationObserverActive ∧
      (L.foldl initializeCodeBlock σ).observerAttached = σ.observerAttached ∧
      (L.foldl initializeCodeBlock σ).scrolls = σ.scrolls ∧
      σ.nextId ≤ (L.foldl initializeCodeBlock σ).nextId := by
  induction L with
  | nil => intro σ; exact ⟨rfl, rfl, rfl, rfl, rfl, le_refl _⟩
  | cons j L ih =>
    intro σ
    obtain ⟨h1, h2, h3, h4, h5, h6⟩ := initializeCodeBlock_shell σ j
    obtain ⟨g1, g2, g3, g4, g5, g6⟩ := ih (initializeCodeBlock σ j)
    exact ⟨g1.trans h1, g2.trans h2, g3.trans h3, g4.trans h4, g5.trans h5, h6.trans g6⟩

theorem foldInit_counts_other (L : List Nat) (hk : k ∉ L) :
    ∀ (σ : EnhState),
      (L.foldl initializeCodeBlock σ).observed.count k = σ.observed.count k ∧
      (L.foldl initializeCodeBlock σ).resizeObserved.count k = σ.resizeObserved.count k := by
  induction L with
  | nil => intro σ; exact ⟨rfl, rfl⟩
  | cons j L ih =>
    intro σ
    have hkj : k ≠ j := fun h => hk (h ▸ List.mem_cons_self j L)
    have hkL : k ∉ L := fun h => hk (List.mem_cons_of_mem _ h)
    obtain ⟨g1, g2⟩ := ih hkL (initializeCodeBlock σ j)
    rcases initializeCodeBlock_tracks σ j with ⟨h1, h2⟩ | ⟨h1, h2⟩
    · rw [List.foldl_cons] at *
      exact ⟨by rw [g1, h1], by rw [g2, h2]⟩
    · rw [List.foldl_cons] at *
      constructor
      · rw [g1, h1, List.count_cons]
        simp [Ne.symm hkj]
      · rw [g2, h2, List.count_cons]
        simp [Ne.symm hkj]

theorem foldInit_observed_mono (L : List Nat) :
    ∀ (σ : EnhState), σ.observed ⊆ (L.foldl initializeCodeBlock σ).observed := by
  induction L with
  | nil => intro σ x hx; exact hx
  | cons j L ih =>
    intro σ x hx
    refine ih (initializeCodeBlock σ j) ?_
    rcases initializeCodeBlock_tracks σ j with ⟨h1, _⟩ | ⟨h1, _⟩
    · rw [h1]; exact hx
    · rw [h1]; exact List.mem_cons_of_mem _ hx

theorem foldInit_findE_ne (L : List Nat) (hk : k ∉ L) :
    ∀ (σ : EnhState) (e : Elem), WFdoc σ → findE k σ.doc = some e →
      ∃ e', findE k ((L.foldl initializeCodeBlock σ)).doc = some e' ∧ shEq e e' := by
  induction L with
  | nil => intro σ e _ hfo; exact ⟨e, hfo, shEq_refl e⟩
  | cons j L ih =>
    intro σ e hwf hfo
    have hkj : k ≠ j := fun h => hk (h ▸ List.mem_cons_self j L)
    have hkL : k ∉ L := fun h => hk (List.mem_cons_of_mem _ h)
    obtain ⟨e1, h1, hsh1, _⟩ := initializeCodeBlock_findE_ne hwf hkj hfo
    obtain ⟨e2, h2, hsh2⟩ := ih hkL _ e1 (initializeCodeBlock_WF hwf) h1
    exact ⟨e2, h2, shEq_trans hsh1 hsh2⟩

theorem foldInit_processed (L : List Nat) :
    ∀ (σ : EnhState), WFdoc σ →
      L.Pairwise (fun j b => j ∉ subEids σ.doc b) →
      L.Nodup →
      (∀ j ∈ L, ∃ ej, findE j σ.doc = some ej ∧ ej.hasClass edCls = true) →
      ∀ k ∈ L, k ∉ σ.observed → k ∉ σ.resizeObserved →
        ∀ e, findE k σ.doc = some e → btnFree e = true →
          ∃ e', findE k (L.foldl initializeCodeBlock σ).doc = some e' ∧
            e'.classes = e.classes ∧ e'.scrollHeight = e.scrollHeight ∧
            (COLLAPSED_HEIGHT < e.scrollHeight →
              e'.idAttr = "collapsed" ∧
              e'.heightStyle = some (heightPx COLLAPSED_HEIGHT) ∧ btnCC e' = 1) ∧
            (¬ COLLAPSED_HEIGHT < e.scrollHeight →
              e'.idAttr = e.idAttr ∧ e'.heightStyle = e.heightStyle ∧ btnCC e' = 0) ∧
            (L.foldl initializeCodeBlock σ).observed.count k = 1 ∧
            (L.foldl initializeCodeBlock σ).resizeObserved.count k = 1 := by
  induction L with
  | nil =>
    intro σ _ _ _ _ k hk
    cases hk
  | cons j L ih =>
    intro σ hwf hTD hnd hmem k hkL hkobs hkres e hfo hbf
    rw [List.pairwise_cons] at hTD
    obtain ⟨hTDhead, hTDtail⟩ := hTD
    rw [List.nodup_cons] at hnd
    obtain ⟨hjL, hndL⟩ := hnd
    rcases List.mem_cons.mp hkL with hkj | hkL'
    · -- the target is processed first
      subst hkj
      obtain ⟨ej, hfoj, hclsj⟩ := hmem k (List.mem_cons_self _ _)
      rw [hfo] at hfoj
      cases hfoj
      have hself := initializeCodeBlock_self hfo hclsj hkobs
      rw [List.foldl_cons, hself]
      have hfind1 : findE k (updAt k (updateCodeBlockElem σ.nextId) σ.doc) =
          some (updateCodeBlockElem σ.nextId e) :=
        findE_updAt_self tameF_updateCodeBlockElem σ.doc e hfo
      have hwf1 : WFD (updAt k (updateCodeBlockElem σ.nextId) σ.doc) (σ.nextId + 1) :=
        WFD_upd hwf
      obtain ⟨e2, h2, hsh2⟩ := foldInit_findE_ne L hjL
        { σ with doc := updAt k (updateCodeBlockElem σ.nextId) σ.doc,
                 observed := k :: σ.observed,
                 resizeObserved := k :: σ.resizeObserved,
                 nextId := σ.nextId + 1 }
        (updateCodeBlockElem σ.nextId e) hwf1 hfind1
      obtain ⟨hc1, hc2⟩ := foldInit_counts_other L hjL
        { σ with doc := updAt k (updateCodeBlockElem σ.nextId) σ.doc,
                 observed := k :: σ.observed,
                 resizeObserved := k :: σ.resizeObserved,
                 nextId := σ.nextId + 1 }
      refine ⟨e2, h2, ?_, ?_, ?_, ?_, ?_, ?_⟩
      · rw [hsh2.2.1]
        by_cases hs : COLLAPSED_HEIGHT < e.scrollHeight
        · exact (updateCodeBlockElem_tall (btnFree_qsa_empty hbf) hs).2.1
        · rw [updateCodeBlockElem_short (btnFree_qsa_empty hbf) hs]
      · rw [hsh2.2.2.2.2.1]
        by_cases hs : COLLAPSED_HEIGHT < e.scrollHeight
        · exact (updateCodeBlockElem_tall (btnFree_qsa_empty hbf) hs).2.2.1
        · rw [updateCodeBlockElem_short (btnFree_qsa_empty hbf) hs]
      · intro hs
        obtain ⟨t1, t2, t3, t4, t5, t6⟩ := updateCodeBlockElem_tall
          (btnFree_qsa_empty hbf) hs (n := σ.nextId)
        refine ⟨by rw [hsh2.2.2.1, t4], by rw [hsh2.2.2.2.1, t5], ?_⟩
        rw [hsh2.2.2.2.2.2, t6, btnFree_btnCC hbf]
      · intro hs
        rw [updateCodeBlockElem_short (btnFree_qsa_empty hbf) hs] at hsh2
        exact ⟨hsh2.2.2.1, hsh2.2.2.2.1, by rw [hsh2.2.2.2.2.2, btnFree_btnCC hbf]⟩
      · rw [hc1]
        show (k :: σ.observed).count k = 1
        rw [List.count_cons_self, List.count_eq_zero.mpr hkobs]
      · rw [hc2]
        show (k :: σ.resizeObserved).count k = 1
        rw [List.count_cons_self, List.count_eq_zero.mpr hkres]
    · -- the target sits in the tail; the head step leaves it untouched
      have hkj : k ≠ j := fun h => hjL (h ▸ hkL')
      have hout : j ∉ allEids e := by
        have hh := hTDhead k hkL'
        rw [subEids_eq hfo] at hh
        exact hh
      have h1 : findE k (initializeCodeBlock σ j).doc = some e :=
        initializeCodeBlock_findE_outside hwf hfo hout
      have hwf1 : WFdoc (initializeCodeBlock σ j) := initializeCodeBlock_WF hwf
      have hmem1 : ∀ b ∈ L, ∃ eb, findE b (initializeCodeBlock σ j).doc = some eb ∧
          eb.hasClass edCls = true := by
        intro b hb
        obtain ⟨eb, hfb, hcb⟩ := hmem b (List.mem_cons_of_mem _ hb)
        have hbj : b ≠ j := fun h => hjL (h ▸ hb)
        obtain ⟨eb', hfb', hshb, _⟩ := initializeCodeBlock_findE_ne hwf hbj hfb
        refine ⟨eb', hfb', ?_⟩
        rw [hasClass_congr hshb.2.1]
        exact hcb
      have hTD1 : L.Pairwise (fun a b => a ∉ subEids (initializeCodeBlock σ j).doc b) := by
        refine List.Pairwise.imp_of_mem ?_ hTDtail
        intro a b ha hb hab hmem'
        obtain ⟨eb, hfb, hcb⟩ := hmem b (List.mem_cons_of_mem _ hb)
        have hbj : b ≠ j := fun h => hjL (h ▸ hb)
        obtain ⟨eb', hfb', hshb, hsub⟩ := initializeCodeBlock_findE_ne hwf hbj hfb
        rw [subEids_eq hfb'] at hmem'
        rcases hsub a hmem' with hm | hm
        · rw [subEids_eq hfb] at hab
          exact hab hm
        · rw [List.mem_singleton] at hm
          obtain ⟨ea, hfa, _⟩ := hmem a (List.mem_cons_of_mem _ ha)
          have hlt : a < σ.nextId := hwf.2 a (mem_allEids_of_findE hfa)
          rw [hm] at hlt
          exact absurd hlt (lt_irrefl _)
      have hkobs1 : k ∉ (initializeCodeBlock σ j).observed := by
        rcases initializeCodeBlock_tracks σ j with ⟨ho, _⟩ | ⟨ho, _⟩
        · rw [ho]; exact hkobs
        · rw [ho]
          intro hmem'
          rcases List.mem_cons.mp hmem' with hh | hh
          · exact hkj hh
          · exact hkobs hh
      have hkres1 : k ∉ (initializeCodeBlock σ j).resizeObserved := by
        rcases initializeCodeBlock_tracks σ j with ⟨_, hr⟩ | ⟨_, hr⟩
        · rw [hr]; exact hkres
        · rw [hr]
          intro hmem'
          rcases List.mem_cons.mp hmem' with hh | hh
          · exact hkj hh
          · exact hkres hh
      rw [List.foldl_cons]
      exact ih (initializeCodeBlock σ j) hwf1 hTD1 hndL hmem1 k hkL' hkobs1 hkres1 e h1 hbf

mutual

theorem findE_of_mem :
    ∀ (e : Elem), (allEids e).Nodup → ∀ x ∈ allNodes e, findE x.eid e = some x
  | .mk i c a h s cs, hnd, x, hx => by
    rw [allEids_mk, List.nodup_cons] at hnd
    rcases List.mem_cons.mp (by simpa using hx) with hh | hh
    · subst hh
      simp
    · have hxe : x.eid ∈ allEidsL cs :=
        allEids_subset_of_mem_allNodesL hh _ (eid_mem_allEids (self_mem_allNodes x))
      have hne : i ≠ x.eid := fun hcon => hnd.1 (hcon ▸ hxe)
      rw [findE_mk, if_neg hne]
      exact findEL_of_mem cs hnd.2 x hh

theorem findEL_of_mem :
    ∀ (l : List Elem), (allEidsL l).Nodup → ∀ x ∈ allNodesL l, findEL x.eid l = some x
  | [], _, x, hx => by simp at hx
  | e :: es, hnd, x, hx => by
    rw [allEidsL_cons, List.nodup_append] at hnd
    obtain ⟨hnd1, hnd2, hdisj⟩ := hnd
    rcases List.mem_append.mp (by simpa using hx) with hh | hh
    · rw [findEL_cons, findE_of_mem e hnd1 x hh]
    · have hxe : x.eid ∈ allEidsL es :=
        allEids_subset_of_mem_allNodesL hh _ (eid_mem_allEids (self_mem_allNodes x))
      have hnone : findE x.eid e = none := by
        rw [findE_eq_none_iff]
        intro hcon
        exact hdisj hcon hxe
      rw [findEL_cons, hnone]
      exact findEL_of_mem es hnd2 x hh

end

mutual

theorem nodup_sub :
    ∀ (e : Elem), (allEids e).Nodup → ∀ x ∈ allNodes e, (allEids x).Nodup
  | .mk i c a h s cs, hnd, x, hx => by
    rcases List.mem_cons.mp (by simpa using hx) with hh | hh
    · subst hh
      exact hnd
    · rw [allEids_mk, List.nodup_cons] at hnd
      exact nodupL_sub cs hnd.2 x hh

theorem nodupL_sub :
    ∀ (l : List Elem), (allEidsL l).Nodup → ∀ x ∈ allNodesL l, (allEids x).Nodup
  | [], _, x, hx => by simp at hx
  | e :: es, hnd, x, hx => by
    rw [allEidsL_cons, List.nodup_append] at hnd
    rcases List.mem_append.mp (by simpa using hx) with hh | hh
    · exact nodup_sub e hnd.1 x hh
    · exact nodupL_sub es hnd.2.1 x hh

end

theorem mem_allNodes_of_qsDoc (hb : b ∈ qsDoc cls d) : b ∈ allNodes d :=
  (List.mem_filter.mp hb).1

theorem hasClass_of_qsDoc (hb : b ∈ qsDoc cls d) : b.hasClass cls = true :=
  (List.mem_filter.mp hb).2

theorem mem_allNodes_of_qsa (hb : b ∈ qsa cls ea) : b ∈ allNodes ea := by
  rw [allNodes_expand]
  exact List.mem_cons_of_mem _ (List.mem_filter.mp hb).1

theorem hasClass_of_qsa (hb : b ∈ qsa cls ea) : b.hasClass cls = true :=
  (List.mem_filter.mp hb).2

theorem pairwise_scan_list (hnd : (allEids d).Nodup) :
    ((qsDoc cls d).map Elem.eid).Pairwise (fun j b => j ∉ subEids d b) := by
  have h2 : (qsDoc cls d).Pairwise (fun a b => a.eid ∉ allEids b) :=
    (pairwise_allNodes d hnd).sublist (List.filter_sublist _)
  rw [List.pairwise_map]
  refine List.Pairwise.imp_of_mem ?_ h2
  intro a b ha hb hab
  rw [subEids_eq (findE_of_mem d hnd b (mem_allNodes_of_qsDoc hb))]
  exact hab

theorem pairwise_qsa_list (hnd : (allEids d).Nodup) (hea : ea ∈ allNodes d) :
    ((qsa cls ea).map Elem.eid).Pairwise (fun j b => j ∉ subEids d b) := by
  have hndea : (allEids ea).Nodup := nodup_sub d hnd ea hea
  have hsub : List.Sublist (qsa cls ea) (allNodes ea) := by
    refine (List.filter_sublist _).trans ?_
    rw [allNodes_expand]
    exact List.sublist_cons_self _ _
  have h2 : (qsa cls ea).Pairwise (fun a b => a.eid ∉ allEids b) :=
    (pairwise_allNodes ea hndea).sublist hsub
  rw [List.pairwise_map]
  refine List.Pairwise.imp_of_mem ?_ h2
  intro a b ha hb hab
  have hbd : b ∈ allNodes d := allNodes_trans d ea hea b (mem_allNodes_of_qsa hb)
  rw [subEids_eq (findE_of_mem d hnd b hbd)]
  exact hab

theorem nodup_scan_list (hnd : (allEids d).Nodup) :
    ((qsDoc cls d).map Elem.eid).Nodup := by
  have : List.Sublist ((qsDoc cls d).map Elem.eid) (allEids d) :=
    List.Sublist.map _ (List.filter_sublist _)
  exact hnd.sublist this

theorem nodup_qsa_list (hnd : (allEids d).Nodup) (hea : ea ∈ allNodes d) :
    ((qsa cls ea).map Elem.eid).Nodup := by
  have hndea : (allEids ea).Nodup := nodup_sub d hnd ea hea
  have hsub : List.Sublist (qsa cls ea) (allNodes ea) := by
    refine (List.filter_sublist _).trans ?_
    rw [allNodes_expand]
    exact List.sublist_cons_self _ _
  exact hndea.sublist (List.Sublist.map _ hsub)

@[simp] theorem setIdAttr_eid : (Elem.setIdAttr a e).eid = e.eid := by cases e; rfl
@[simp] theorem setIdAttr_classes : (Elem.setIdAttr a e).classes = e.classes := by cases e; rfl
@[simp] theorem setIdAttr_idAttr : (Elem.setIdAttr a e).idAttr = a := by cases e; rfl
@[simp] theorem setIdAttr_heightStyle :
    (Elem.setIdAttr a e).heightStyle = e.heightStyle := by cases e; rfl
@[simp] theorem setIdAttr_scrollHeight :
    (Elem.setIdAttr a e).scrollHeight = e.scrollHeight := by cases e; rfl
@[simp] theorem setIdAttr_children : (Elem.setIdAttr a e).children = e.children := by
  cases e; rfl
@[simp] theorem setHeight_eid : (Elem.setHeight v e).eid = e.eid := by cases e; rfl
@[simp] theorem setHeight_classes : (Elem.setHeight v e).classes = e.classes := by
  cases e; rfl
@[simp] theorem setHeight_idAttr : (Elem.setHeight v e).idAttr = e.idAttr := by cases e; rfl
@[simp] theorem setHeight_heightStyle : (Elem.setHeight v e).heightStyle = v := by
  cases e; rfl
@[simp] theorem setHeight_scrollHeight :
    (Elem.setHeight v e).scrollHeight = e.scrollHeight := by cases e; rfl
@[simp] theorem setHeight_children : (Elem.setHeight v e).children = e.children := by
  cases e; rfl

theorem closestA_expand (sel : Elem → Bool) (t : Nat) (e : Elem) :
    closestA sel t e =
      if e.eid = t then some (if sel e then some e.eid else none)
      else
        match closestAL sel t e.children with
        | none => none
        | some r => some (r.orElse (fun _ => if sel e then some e.eid else none)) := by
  cases e
  rw [closestA]
  rfl

mutual

theorem closestA_updAt (hf : FieldsOnly f)
    (hsel : ∀ e1 e2 : Elem, e1.classes = e2.classes → sel e1 = sel e2) :
    ∀ (e : Elem), closestA sel t' (updAt t f e) = closestA sel t' e
  | .mk i c a h s cs => by
    by_cases hit : i = t
    · rw [updAt_mk, if_pos hit, closestA_expand,
        closestA_expand sel t' (Elem.mk i c a h s cs)]
      obtain ⟨h1, h2, _, h4⟩ := hf (Elem.mk i c a h s cs)
      rw [h1, h4, hsel _ _ h2]
    · rw [updAt_mk, if_neg hit, closestA_expand,
        closestA_expand sel t' (Elem.mk i c a h s cs)]
      simp only [Elem.eid_mk, Elem.children_mk]
      rw [closestAL_updAtL hf hsel cs,
        hsel (Elem.mk i c a h s (updAtL t f cs)) (Elem.mk i c a h s cs) rfl]

theorem closestAL_updAtL (hf : FieldsOnly f)
    (hsel : ∀ e1 e2 : Elem, e1.classes = e2.classes → sel e1 = sel e2) :
    ∀ (l : List Elem), closestAL sel t' (updAtL t f l) = closestAL sel t' l
  | [] => rfl
  | e :: es => by
    rw [updAtL_cons, closestAL, closestAL, closestA_updAt hf hsel e,
      closestAL_updAtL hf hsel es]

end

theorem closestE_updAt (hf : FieldsOnly f)
    (hsel : ∀ e1 e2 : Elem, e1.classes = e2.classes → sel e1 = sel e2) :
    closestE sel t' (updAt t f d) = closestE sel t' d := by
  unfold closestE
  rw [closestA_updAt hf hsel d]

theorem hasClass_sel_congr (cls : String) :
    ∀ e1 e2 : Elem, e1.classes = e2.classes →
      Elem.hasClass cls e1 = Elem.hasClass cls e2 := by
  intro e1 e2 hc
  exact hasClass_congr hc

theorem clickHandler_expand_spec (σ : EnhState) (b r : Nat) (eb er : Elem)
    (hfb : findE b σ.doc = some eb) (hbtn : eb.hasClass btnCls = true)
    (hcl : closestE (fun e => e.hasClass edCls) b σ.doc = some r)
    (hfr : findE r σ.doc = some er)
    (hrid : er.idAttr = "collapsed") :
    clickHandler σ b =
      { σ with
        doc :=
          updAt b (Elem.setIdAttr "expanded")
            (updAt r
              (fun e => (e.setIdAttr "expanded").setHeight (some (expandHeightOf er)))
              σ.doc) } := by
  unfold clickHandler
  simp only [hfb, hbtn, Bool.not_true, hcl, hfr, hrid]
  simp

theorem clickHandler_collapse_spec (σ : EnhState) (b r : Nat) (eb er : Elem)
    (hfb : findE b σ.doc = some eb) (hbtn : eb.hasClass btnCls = true)
    (hcl : closestE (fun e => e.hasClass edCls) b σ.doc = some r)
    (hfr : findE r σ.doc = some er)
    (hrid : ¬ er.idAttr = "collapsed") :
    clickHandler σ b =
      (match (closestE msgSel r
            (updAt b (Elem.setIdAttr "collapsed")
              (updAt r (fun e => (e.setIdAttr "collapsed").setHeight
                (some (heightPx COLLAPSED_HEIGHT))) σ.doc))).bind
          (fun x => parentOf
            (updAt b (Elem.setIdAttr "collapsed")
              (updAt r (fun e => (e.setIdAttr "collapsed").setHeight
                (some (heightPx COLLAPSED_HEIGHT))) σ.doc)) x) with
       | none =>
         { σ with
           doc :=
             updAt b (Elem.setIdAttr "collapsed")
               (updAt r
                 (fun e => (e.setIdAttr "collapsed").setHeight
                   (some (heightPx COLLAPSED_HEIGHT)))
                 σ.doc) }
       | some p =>
         { σ with
           doc :=
             updAt b (Elem.setIdAttr "collapsed")
               (updAt r
                 (fun e => (e.setIdAttr "collapsed").setHeight
                   (some (heightPx COLLAPSED_HEIGHT)))
                 σ.doc),
           scrolls := p :: σ.scrolls }) := by
  unfold clickHandler
  simp only [hfb, hbtn, Bool.not_true, hcl, hfr]
  have hb : (er.idAttr == "collapsed") = false := by
    rw [beq_eq_false_iff_ne]
    exact hrid
  simp only [hb]
  simp

theorem eid_mem_scan_list (hfo : findE k d = some e) (hcls : e.hasClass cls = true) :
    k ∈ (qsDoc cls d).map Elem.eid := by
  obtain ⟨h1, h2⟩ := findE_some_props d e hfo
  exact List.mem_map.mpr ⟨e, List.mem_filter.mpr ⟨h2, hcls⟩, h1⟩

theorem hmem_scan_list (hnd : (allEids d).Nodup) :
    ∀ j ∈ (qsDoc cls d).map Elem.eid,
      ∃ ej, findE j d = some ej ∧ ej.hasClass cls = true := by
  intro j hj
  obtain ⟨x, hx, hxe⟩ := List.mem_map.mp hj
  exact ⟨x, hxe ▸ findE_of_mem d hnd x (mem_allNodes_of_qsDoc hx), hasClass_of_qsDoc hx⟩

theorem hmem_qsa_list (hnd : (allEids d).Nodup) (hea : ea ∈ allNodes d) :
    ∀ j ∈ (qsa cls ea).map Elem.eid,
      ∃ ej, findE j d = some ej ∧ ej.hasClass cls = true := by
  intro j hj
  obtain ⟨x, hx, hxe⟩ := List.mem_map.mp hj
  have hxd : x ∈ allNodes d := allNodes_trans d ea hea x (mem_allNodes_of_qsa hx)
  exact ⟨x, hxe ▸ findE_of_mem d hnd x hxd, hasClass_of_qsa hx⟩

-- ### Concrete documents and states used by the witnesses

def wScroller : Elem := .mk 2 [scrollerCls] "" none 600 []
def wEditor : Elem := .mk 1 [edCls] "" none 600 [wScroller]
def wShort : Elem := .mk 3 [edCls] "" none 200 []
def wBody : Elem := .mk 0 [] "" none 1000 [wEditor, wShort]

def wState : EnhState :=
  { doc := wBody, url := "/c/abc", isCurrentlyEditPage := false,
    mutationObserverActive := false, observerAttached := false,
    observed := [], resizeObserved := [], nextId := 10, scrolls := [] }

def wInner : Elem := .mk 21 [edCls] "" none 700 []
def wOuter : Elem := .mk 20 [edCls] "" none 800 [.mk 22 [] "" none 0 [wInner]]
def wBodyN : Elem := .mk 0 [] "" none 1000 [wOuter]

def wStateN : EnhState :=
  { wState with
    doc := wBodyN
    nextId := 30
    mutationObserverActive := true
    observerAttached := true }

def wDeepEd : Elem := .mk 42 [edCls] "" none 500 []
def wWrap : Elem := .mk 40 [] "" none 0 [.mk 41 [] "" none 0 [wDeepEd]]
def wBodyW : Elem := .mk 0 [] "" none 1000 [wWrap]

def wStateW : EnhState :=
  { wState with
    doc := wBodyW
    nextId := 50
    mutationObserverActive := true
    observerAttached := true }

def wBtn9 : Elem := .mk 61 [btnCls] "collapsed" none 0 []
def wEdNoScr : Elem := .mk 60 [edCls] "collapsed" (some "400px") 600 [wBtn9]
def wBody9 : Elem := .mk 0 [] "" none 1000 [wEdNoScr]

def wState9 : EnhState :=
  { wState with
    doc := wBody9
    nextId := 70
    observed := [60]
    resizeObserved := [60]
    mutationObserverActive := true
    observerAttached := true }

-- ### The claims

/-- C1: for every editor root whose content height exceeds the 400-unit
threshold at evaluation, the full scan-and-initialize pass of
initialization attaches exactly one toggle button to it (exactly one
button-classed direct child), marks the root collapsed and sets its
rendered height to the threshold, `400px`.  The hypotheses express the
pristine load state: distinct node identities, a fresh identity supply,
a host-rendered document containing no toggle button yet, empty tracked
sets, and route mode off the disabled page. -/
theorem C1_scan_collapses_tall_editor (σ : EnhState)
    (hwf : WFdoc σ) (hnb : btnFree σ.doc = true)
    (hobs : σ.observed = []) (hres : σ.resizeObserved = [])
    (hpage : σ.isCurrentlyEditPage = false)
    (k : Nat) (e : Elem) (hfo : findE k σ.doc = some e)
    (hcls : e.hasClass edCls = true)
    (hs : COLLAPSED_HEIGHT < e.scrollHeight) :
    ∃ e', findE k (initializeAllCodeBlocks σ).doc = some e' ∧
      btnCC e' = 1 ∧ e'.idAttr = "collapsed" ∧ e'.heightStyle = some "400px" := by
  have hpx : heightPx COLLAPSED_HEIGHT = "400px" := rfl
  unfold initializeAllCodeBlocks
  rw [if_neg (by rw [hpage]; exact Bool.false_ne_true)]
  obtain ⟨e', hfind, hclasses, hscroll, htall, _, _, _⟩ :=
    foldInit_processed ((qsDoc edCls σ.doc).map Elem.eid) σ hwf
      (pairwise_scan_list hwf.1) (nodup_scan_list hwf.1) (hmem_scan_list hwf.1)
      k (eid_mem_scan_list hfo hcls)
      (by rw [hobs]; exact List.not_mem_nil k)
      (by rw [hres]; exact List.not_mem_nil k)
      e hfo (btnFree_sub hnb (findE_some_props σ.doc e hfo).2)
  obtain ⟨hid, hh, hbc⟩ := htall hs
  exact ⟨e', hfind, hbc, hid, by rw [hh, hpx]⟩

theorem C1_witness :
    ∃ e', findE 1 (initializeAllCodeBlocks wState).doc = some e' ∧
      btnCC e' = 1 ∧ e'.idAttr = "collapsed" ∧ e'.heightStyle = some "400px" :=
  C1_scan_collapses_tall_editor wState (by constructor <;> decide) (by decide)
    rfl rfl rfl 1 wEditor rfl rfl (by decide)

/-- C4: for every editor root present at initialization whose content
height is at most the 400-unit threshold, the scan-and-initialize pass
attaches no toggle button to it, does not set its collapsed marker and
leaves its rendered height unchanged.  Same pristine-load-state
hypotheses as C1. -/
theorem C4_scan_leaves_short_editor_untouched (σ : EnhState)
    (hwf : WFdoc σ) (hnb : btnFree σ.doc = true)
    (hobs : σ.observed = []) (hres : σ.resizeObserved = [])
    (hpage : σ.isCurrentlyEditPage = false)
    (k : Nat) (e : Elem) (hfo : findE k σ.doc = some e)
    (hcls : e.hasClass edCls = true)
    (hs : e.scrollHeight ≤ COLLAPSED_HEIGHT) :
    ∃ e', findE k (initializeAllCodeBlocks σ).doc = some e' ∧
      btnCC e' = 0 ∧ e'.idAttr = e.idAttr ∧ e'.heightStyle = e.heightStyle := by
  unfold initializeAllCodeBlocks
  rw [if_neg (by rw [hpage]; exact Bool.false_ne_true)]
  obtain ⟨e', hfind, hclasses, hscroll, _, hshort, _, _⟩ :=
    foldInit_processed ((qsDoc edCls σ.doc).map Elem.eid) σ hwf
      (pairwise_scan_list hwf.1) (nodup_scan_list hwf.1) (hmem_scan_list hwf.1)
      k (eid_mem_scan_list hfo hcls)
      (by rw [hobs]; exact List.not_mem_nil k)
      (by rw [hres]; exact List.not_mem_nil k)
      e hfo (btnFree_sub hnb (findE_some_props σ.doc e hfo).2)
  obtain ⟨hid, hh, hbc⟩ := hshort (not_lt.mpr hs)
  exact ⟨e', hfind, hbc, hid, hh⟩

theorem C4_witness :
    ∃ e', findE 3 (initializeAllCodeBlocks wState).doc = some e' ∧
      btnCC e' = 0 ∧ e'.idAttr = wShort.idAttr ∧ e'.heightStyle = wShort.heightStyle :=
  C4_scan_leaves_short_editor_untouched wState (by constructor <;> decide) (by decide)
    rfl rfl rfl 3 wShort rfl rfl (by decide)

/-- C3: while route mode is the disabled page, the full scan, the
size-change reaction and the structural-change reaction are complete
no-ops: no DOM mutation and no initialization happen, whatever entries
or mutation records are fed in. -/
theorem C3_route_gating (σ : EnhState) (hpage : σ.isCurrentlyEditPage = true)
    (entries : List Nat) (muts : List (List Nat)) :
    initializeAllCodeBlocks σ = σ ∧ resizeCallback σ entries = σ ∧
      mutationCallback σ muts = σ := by
  unfold initializeAllCodeBlocks resizeCallback mutationCallback
  rw [hpage]
  exact ⟨rfl, rfl, rfl⟩

theorem C3_witness :
    initializeAllCodeBlocks { wState with isCurrentlyEditPage := true } =
        { wState with isCurrentlyEditPage := true } ∧
      resizeCallback { wState with isCurrentlyEditPage := true } [1, 3] =
        { wState with isCurrentlyEditPage := true } ∧
      mutationCallback { wState with isCurrentlyEditPage := true } [[1], [3]] =
        { wState with isCurrentlyEditPage := true } :=
  C3_route_gating { wState with isCurrentlyEditPage := true } rfl [1, 3] [[1], [3]]

/-- C10: the toggle click reaction is not gated by route mode: for any
click target, running the click handler with the route-mode flag forced
to an arbitrary value produces exactly the state obtained by running it
on the original state and then forcing the flag — the handler neither
reads nor writes the route-mode flag. -/
theorem C10_click_ignores_route_mode (σ : EnhState) (p : Bool) (t : Nat) :
    clickHandler { σ with isCurrentlyEditPage := p } t =
      { clickHandler σ t with isCurrentlyEditPage := p } := by
  have hdoc : ({ σ with isCurrentlyEditPage := p } : EnhState).doc = σ.doc := rfl
  unfold clickHandler
  rw [hdoc]
  repeat' split
  all_goals dsimp only
  all_goals repeat' split
  all_goals rfl

theorem foldInit_noop (L : List Nat) :
    ∀ (σ : EnhState), (∀ j ∈ L, j ∈ σ.observed) → L.foldl initializeCodeBlock σ = σ := by
  induction L with
  | nil => intro σ _; rfl
  | cons j L ih =>
    intro σ hall
    rw [List.foldl_cons]
    have hj : j ∈ σ.observed := hall j (List.mem_cons_self _ _)
    have hstep : initializeCodeBlock σ j = σ := by
      cases hfo : findE j σ.doc with
      | none => exact initializeCodeBlock_skip hfo
      | some e => exact initializeCodeBlock_skip_obs hfo hj
    rw [hstep]
    exact ih σ (fun b hb => hall b (List.mem_cons_of_mem _ hb))

theorem initializeCodeBlock_findE_classes (hwf : WFdoc σ)
    (hfo : findE k' σ.doc = some e) :
    ∃ e', findE k' (initializeCodeBlock σ j).doc = some e' ∧ e'.classes = e.classes := by
  by_cases hkj : k' = j
  · subst hkj
    rcases initializeCodeBlock_cases σ k' with h | ⟨e2, hf2, _, _, h⟩
    · rw [h]; exact ⟨e, hfo, rfl⟩
    · rw [h]
      exact ⟨updateCodeBlockElem σ.nextId e,
        findE_updAt_self tameF_updateCodeBlockElem σ.doc e hfo,
        (tameF_updateCodeBlockElem e).2.1⟩
  · obtain ⟨e', hf, hsh, _⟩ := initializeCodeBlock_findE_ne hwf hkj hfo
    exact ⟨e', hf, hsh.2.1⟩

theorem foldInit_obs_after (L : List Nat) :
    ∀ (σ : EnhState), WFdoc σ →
      (∀ j ∈ L, ∃ ej, findE j σ.doc = some ej ∧ ej.hasClass edCls = true) →
      ∀ j ∈ L, j ∈ (L.foldl initializeCodeBlock σ).observed := by
  induction L with
  | nil => intro σ _ _ j hj; cases hj
  | cons a L ih =>
    intro σ hwf hmem j hj
    rw [List.foldl_cons]
    rcases List.mem_cons.mp hj with hh | hh
    · subst hh
      have hj1 : j ∈ (initializeCodeBlock σ j).observed := by
        obtain ⟨e, hfo, hcls⟩ := hmem j (List.mem_cons_self _ _)
        by_cases hobs : j ∈ σ.observed
        · rw [initializeCodeBlock_skip_obs hfo hobs]; exact hobs
        · rw [initializeCodeBlock_self hfo hcls hobs]
          exact List.mem_cons_self _ _
      exact foldInit_observed_mono L _ hj1
    · refine ih (initializeCodeBlock σ a) (initializeCodeBlock_WF hwf) ?_ j hh
      intro b hb
      obtain ⟨eb, hfb, hcb⟩ := hmem b (List.mem_cons_of_mem _ hb)
      obtain ⟨eb', hfb', hcls'⟩ := initializeCodeBlock_findE_classes hwf hfb
      refine ⟨eb', hfb', ?_⟩
      rw [hasClass_congr hcls']
      exact hcb

theorem initializeCodeBlock_qsDoc (σ : EnhState) (j : Nat) :
    (qsDoc edCls (initializeCodeBlock σ j).doc).map Elem.eid =
      (qsDoc edCls σ.doc).map Elem.eid := by
  rcases initializeCodeBlock_cases σ j with h | ⟨e, _, _, _, h⟩
  · rw [h]
  · rw [h]
    exact qsEids_updAt tameF_updateCodeBlockElem (by decide) σ.doc

theorem foldInit_qsDoc (L : List Nat) :
    ∀ (σ : EnhState),
      (qsDoc edCls (L.foldl initializeCodeBlock σ).doc).map Elem.eid =
        (qsDoc edCls σ.doc).map Elem.eid := by
  induction L with
  | nil => intro σ; rfl
  | cons j L ih =>
    intro σ
    rw [List.foldl_cons, ih (initializeCodeBlock σ j), initializeCodeBlock_qsDoc]

theorem scan_unfold (σ : EnhState) (hpage : σ.isCurrentlyEditPage = false) :
    initializeAllCodeBlocks σ =
      ((qsDoc edCls σ.doc).map Elem.eid).foldl initializeCodeBlock σ := by
  unfold initializeAllCodeBlocks
  rw [if_neg (by rw [hpage]; exact Bool.false_ne_true)]

theorem scan_noop_after (σ : EnhState) (hwf : WFdoc σ)
    (hpage : σ.isCurrentlyEditPage = false) :
    ∀ σ2 : EnhState, σ2.doc = (initializeAllCodeBlocks σ).doc →
      σ2.observed = (initializeAllCodeBlocks σ).observed →
      σ2.isCurrentlyEditPage = false →
      initializeAllCodeBlocks σ2 = σ2 := by
  intro σ2 hdoc hobs hpage2
  rw [scan_unfold σ2 hpage2]
  apply foldInit_noop
  intro j hj
  rw [hobs]
  rw [hdoc, scan_unfold σ hpage] at hj
  rw [scan_unfold σ hpage]
  rw [foldInit_qsDoc] at hj
  exact foldInit_obs_after _ σ hwf (hmem_scan_list hwf.1) j hj

theorem scan_idem (σ : EnhState) (hwf : WFdoc σ) :
    initializeAllCodeBlocks (initializeAllCodeBlocks σ) = initializeAllCodeBlocks σ := by
  cases hpage : σ.isCurrentlyEditPage with
  | true =>
    have h1 : initializeAllCodeBlocks σ = σ := by
      unfold initializeAllCodeBlocks
      rw [if_pos hpage]
    rw [h1, h1]
  | false =>
    have hpage1 : (initializeAllCodeBlocks σ).isCurrentlyEditPage = false := by
      rw [scan_unfold σ hpage, (foldInit_shell _ σ).2.1]
      exact hpage
    exact scan_noop_after σ hwf hpage (initializeAllCodeBlocks σ) rfl rfl hpage1

/-- C5: the full scan-and-initialize pass is idempotent: invoking it a
second time immediately after a first run returns the state of the
first run unchanged — no additional button is attached anywhere and no
already-tracked root is re-initialized. -/
theorem C5_scan_idempotent (σ : EnhState) (hwf : WFdoc σ) :
    initializeAllCodeBlocks (initializeAllCodeBlocks σ) = initializeAllCodeBlocks σ :=
  scan_idem σ hwf

theorem C5_witness :
    initializeAllCodeBlocks (initializeAllCodeBlocks wState) =
      initializeAllCodeBlocks wState :=
  C5_scan_idempotent wState (by constructor <;> decide)

theorem setFlag_eta (σ : EnhState) (h : σ.isCurrentlyEditPage = p) :
    { σ with isCurrentlyEditPage := p } = σ := by
  cases σ
  cases h
  rfl

theorem onRouteChange_edit_active (hc : checkIsEditPage σ.url = true)
    (ha : σ.mutationObserverActive = true) :
    onRouteChange σ =
      { σ with isCurrentlyEditPage := true,
               mutationObserverActive := false, observerAttached := false } := by
  unfold onRouteChange
  dsimp only
  rw [hc]
  rw [if_pos rfl, if_pos ha]

theorem onRouteChange_edit_inactive (hc : checkIsEditPage σ.url = true)
    (ha : σ.mutationObserverActive = false) :
    onRouteChange σ = { σ with isCurrentlyEditPage := true } := by
  unfold onRouteChange
  dsimp only
  rw [hc]
  rw [if_pos rfl, if_neg (by rw [ha]; exact Bool.false_ne_true)]

theorem onRouteChange_noedit (hc : checkIsEditPage σ.url = false) :
    onRouteChange σ =
      (if σ.mutationObserverActive = true
        then initializeAllCodeBlocks { σ with isCurrentlyEditPage := false }
        else { initializeAllCodeBlocks { σ with isCurrentlyEditPage := false } with
               mutationObserverActive := true, observerAttached := true }) := by
  unfold onRouteChange
  dsimp only
  rw [hc]
  rw [if_neg Bool.false_ne_true]
  have hact : (initializeAllCodeBlocks
      { σ with isCurrentlyEditPage := false }).mutationObserverActive =
      σ.mutationObserverActive := by
    rw [scan_unfold _ rfl]
    exact (foldInit_shell _ _).2.2.1
  rw [hact]

theorem scan_shell (σ : EnhState) :
    (initializeAllCodeBlocks σ).url = σ.url ∧
    (initializeAllCodeBlocks σ).isCurrentlyEditPage = σ.isCurrentlyEditPage ∧
    (initializeAllCodeBlocks σ).mutationObserverActive = σ.mutationObserverActive ∧
    (initializeAllCodeBlocks σ).observerAttached = σ.observerAttached := by
  unfold initializeAllCodeBlocks
  by_cases h : σ.isCurrentlyEditPage = true
  · rw [if_pos h]; exact ⟨rfl, rfl, rfl, rfl⟩
  · rw [if_neg h]
    obtain ⟨h1, h2, h3, h4, _, _⟩ := foldInit_shell ((qsDoc edCls σ.doc).map Elem.eid) σ
    exact ⟨h1, h2, h3, h4⟩

/-- C8: route-change handling is idempotent while the route mode stays
the same, and it keeps the observer-active flag equal to the actual
attachment state: invoking it twice with an unchanged URL yields exactly
the state of the first invocation (the structural observer is never
attached twice without an intervening detach and never detached when not
attached). -/
theorem C8_route_change_idempotent (σ : EnhState) (hwf : WFdoc σ)
    (hsync : σ.mutationObserverActive = σ.observerAttached) :
    onRouteChange (onRouteChange σ) = onRouteChange σ ∧
      (onRouteChange σ).mutationObserverActive = (onRouteChange σ).observerAttached := by
  cases hc : checkIsEditPage σ.url with
  | true =>
    cases ha : σ.mutationObserverActive with
    | true =>
      rw [onRouteChange_edit_active hc ha]
      constructor
      · have h2 := onRouteChange_edit_inactive
          (σ := { σ with
                  isCurrentlyEditPage := true
                  mutationObserverActive := false
                  observerAttached := false }) hc rfl
        rw [h2]
      · rfl
    | false =>
      rw [onRouteChange_edit_inactive hc ha]
      constructor
      · have h2 := onRouteChange_edit_inactive
          (σ := { σ with isCurrentlyEditPage := true }) hc ha
        rw [h2]
      · exact hsync
  | false =>
    rw [onRouteChange_noedit hc]
    by_cases ha : σ.mutationObserverActive = true
    · rw [if_pos ha]
      have hcS : checkIsEditPage
          (initializeAllCodeBlocks { σ with isCurrentlyEditPage := false }).url = false := by
        rw [(scan_shell _).1]
        exact hc
      have haS : (initializeAllCodeBlocks
          { σ with isCurrentlyEditPage := false }).mutationObserverActive = true := by
        rw [(scan_shell _).2.2.1]
        exact ha
      have hfS : (initializeAllCodeBlocks
          { σ with isCurrentlyEditPage := false }).isCurrentlyEditPage = false := by
        rw [(scan_shell _).2.1]
      constructor
      · rw [onRouteChange_noedit hcS, if_pos haS, setFlag_eta _ hfS]
        exact scan_idem { σ with isCurrentlyEditPage := false } hwf
      · rw [(scan_shell _).2.2.1, (scan_shell _).2.2.2]
        exact hsync
    · rw [if_neg ha]
      have hcT : checkIsEditPage
          ({ initializeAllCodeBlocks { σ with isCurrentlyEditPage := false } with
             mutationObserverActive := true, observerAttached := true } : EnhState).url =
          false := by
        show checkIsEditPage
          (initializeAllCodeBlocks { σ with isCurrentlyEditPage := false }).url = false
        rw [(scan_shell _).1]
        exact hc
      have hfT : ({ initializeAllCodeBlocks { σ with isCurrentlyEditPage := false } with
             mutationObserverActive := true, observerAttached := true } :
             EnhState).isCurrentlyEditPage = false := by
        show (initializeAllCodeBlocks
          { σ with isCurrentlyEditPage := false }).isCurrentlyEditPage = false
        rw [(scan_shell _).2.1]
      constructor
      · rw [onRouteChange_noedit hcT, if_pos rfl, setFlag_eta _ hfT]
        exact scan_noop_after { σ with isCurrentlyEditPage := false } hwf rfl _ rfl rfl hfT
      · rfl

theorem C8_witness :
    onRouteChange (onRouteChange wState) = onRouteChange wState ∧
      (onRouteChange wState).mutationObserverActive =
        (onRouteChange wState).observerAttached :=
  C8_route_change_idempotent wState (by constructor <;> decide) rfl

theorem clickHandler_collapse_doc (σ : EnhState) (b r : Nat) (eb er : Elem)
    (hfb : findE b σ.doc = some eb) (hbtn : eb.hasClass btnCls = true)
    (hcl : closestE (fun e => e.hasClass edCls) b σ.doc = some r)
    (hfr : findE r σ.doc = some er)
    (hrid : ¬ er.idAttr = "collapsed") :
    (clickHandler σ b).doc =
      updAt b (Elem.setIdAttr "collapsed")
        (updAt r (fun e => (e.setIdAttr "collapsed").setHeight
          (some (heightPx COLLAPSED_HEIGHT))) σ.doc) := by
  rw [clickHandler_collapse_spec σ b r eb er hfb hbtn hcl hfr hrid]
  split <;> rfl

def wState1 : EnhState := initializeAllCodeBlocks wState
def wBtn1 : Elem := .mk 10 [btnCls] "collapsed" none 0 []
def wEditor1 : Elem := .mk 1 [edCls] "collapsed" (some "400px") 600 [wScroller, wBtn1]

/-- C2: toggle round-trip on a collapsed editor root.  The first click
on its button marks both the root and the button expanded and sets the
root's rendered height to the measured full content height (the scroll
height of the first inner scroller descendant, or the `auto` fallback);
a second click on the same button returns both markers to collapsed and
the rendered height to exactly "400px" — the root's state marker ends at
its original value. -/
theorem C2_toggle_round_trip (σ : EnhState) (b r : Nat) (eb er : Elem)
    (hfb : findE b σ.doc = some eb)
    (hbtn : eb.hasClass btnCls = true) (hbed : eb.hasClass edCls = false)
    (hcl : closestE (fun e => e.hasClass edCls) b σ.doc = some r)
    (hfr : findE r σ.doc = some er) (hred : er.hasClass edCls = true)
    (hrid : er.idAttr = "collapsed") (hbid : eb.idAttr = "collapsed") :
    ∃ er1 eb1 er2 eb2,
      findE r (clickHandler σ b).doc = some er1 ∧
      er1.idAttr = "expanded" ∧
      er1.heightStyle = some (expandHeightOf er) ∧
      findE b (clickHandler σ b).doc = some eb1 ∧
      eb1.idAttr = "expanded" ∧
      findE r (clickHandler (clickHandler σ b) b).doc = some er2 ∧
      er2.idAttr = "collapsed" ∧ er2.idAttr = er.idAttr ∧
      er2.heightStyle = some "400px" ∧
      findE b (clickHandler (clickHandler σ b) b).doc = some eb2 ∧
      eb2.idAttr = "collapsed" ∧ eb2.idAttr = eb.idAttr := by
  have hbr : b ≠ r := by
    intro h
    subst h
    rw [hfb] at hfr
    cases hfr
    rw [hred] at hbed
    exact Bool.noConfusion hbed
  have hTE : TameF [] (fun e : Elem =>
      (e.setIdAttr "expanded").setHeight (some (expandHeightOf er))) :=
    TameF.of_fieldsOnly fieldsOnly_setIdAttr_setHeight
  have hTC : TameF [] (fun e : Elem =>
      (e.setIdAttr "collapsed").setHeight (some (heightPx COLLAPSED_HEIGHT))) :=
    TameF.of_fieldsOnly fieldsOnly_setIdAttr_setHeight
  have hTI : TameF ([] : List Nat) (Elem.setIdAttr "expanded") :=
    TameF.of_fieldsOnly fieldsOnly_setIdAttr
  have hTI2 : TameF ([] : List Nat) (Elem.setIdAttr "collapsed") :=
    TameF.of_fieldsOnly fieldsOnly_setIdAttr
  have hexp := clickHandler_expand_spec σ b r eb er hfb hbtn hcl hfr hrid
  -- the document after the first click
  have hstep1r : findE r (updAt r (fun e : Elem =>
      (e.setIdAttr "expanded").setHeight (some (expandHeightOf er))) σ.doc) =
      some ((er.setIdAttr "expanded").setHeight (some (expandHeightOf er))) :=
    findE_updAt_self hTE σ.doc er hfr
  obtain ⟨er1, her1, hsher1, _⟩ := findE_updAt_ne hTI hbr.symm (by simp)
    (updAt r (fun e : Elem =>
      (e.setIdAttr "expanded").setHeight (some (expandHeightOf er))) σ.doc)
    ((er.setIdAttr "expanded").setHeight (some (expandHeightOf er))) hstep1r
  obtain ⟨eb', heb', hsheb', _⟩ := findE_updAt_ne hTE hbr (by simp) σ.doc eb hfb
  have hstep1b : findE b (updAt b (Elem.setIdAttr "expanded")
      (updAt r (fun e : Elem =>
        (e.setIdAttr "expanded").setHeight (some (expandHeightOf er))) σ.doc)) =
      some (eb'.setIdAttr "expanded") :=
    findE_updAt_self hTI _ eb' heb'
  -- facts about the state after the first click
  have hfr1 : findE r (clickHandler σ b).doc = some er1 := by rw [hexp]; exact her1
  have hfb1 : findE b (clickHandler σ b).doc = some (eb'.setIdAttr "expanded") := by
    rw [hexp]; exact hstep1b
  have her1id : er1.idAttr = "expanded" := by
    rw [hsher1.2.2.1]; simp
  have her1h : er1.heightStyle = some (expandHeightOf er) := by
    rw [hsher1.2.2.2.1]; simp
  have heb1id : (eb'.setIdAttr "expanded").idAttr = "expanded" := by simp
  have heb1btn : (eb'.setIdAttr "expanded").hasClass btnCls = true := by
    have hcc : Elem.classes (eb'.setIdAttr "expanded") = Elem.classes eb := by
      rw [setIdAttr_classes, hsheb'.2.1]
    rw [hasClass_congr hcc]
    exact hbtn
  -- the closest editor of the button is unchanged by the field updates
  have hcl1 : closestE (fun e => e.hasClass edCls) b (clickHandler σ b).doc = some r := by
    rw [hexp]
    show closestE _ b (updAt b (Elem.setIdAttr "expanded") _) = some r
    rw [closestE_updAt fieldsOnly_setIdAttr (fun e1 e2 h => hasClass_congr h),
      closestE_updAt fieldsOnly_setIdAttr_setHeight (fun e1 e2 h => hasClass_congr h)]
    exact hcl
  have hrid1 : ¬ er1.idAttr = "collapsed" := by
    rw [her1id]
    intro h
    exact absurd h (by decide)
  -- the second click collapses
  have hcol := clickHandler_collapse_doc (clickHandler σ b) b r
    (eb'.setIdAttr "expanded") er1 hfb1 heb1btn hcl1 hfr1 hrid1
  have hstep2r : findE r (updAt r (fun e : Elem =>
      (e.setIdAttr "collapsed").setHeight (some (heightPx COLLAPSED_HEIGHT)))
      (clickHandler σ b).doc) =
      some ((er1.setIdAttr "collapsed").setHeight (some (heightPx COLLAPSED_HEIGHT))) :=
    findE_updAt_self hTC _ er1 hfr1
  obtain ⟨er2, her2, hsher2, _⟩ := findE_updAt_ne hTI2 hbr.symm (by simp) _
    ((er1.setIdAttr "collapsed").setHeight (some (heightPx COLLAPSED_HEIGHT))) hstep2r
  obtain ⟨eb2', heb2', hsheb2', _⟩ := findE_updAt_ne hTC hbr (by simp)
    (clickHandler σ b).doc (eb'.setIdAttr "expanded") hfb1
  have hstep2b : findE b (updAt b (Elem.setIdAttr "collapsed")
      (updAt r (fun e : Elem =>
        (e.setIdAttr "collapsed").setHeight (some (heightPx COLLAPSED_HEIGHT)))
        (clickHandler σ b).doc)) =
      some (eb2'.setIdAttr "collapsed") :=
    findE_updAt_self hTI2 _ eb2' heb2'
  refine ⟨er1, eb'.setIdAttr "expanded", er2, eb2'.setIdAttr "collapsed",
    hfr1, her1id, her1h, hfb1, heb1id, ?_, ?_, ?_, ?_, ?_, ?_, ?_⟩
  · rw [hcol]; exact her2
  · rw [hsher2.2.2.1]; simp
  · rw [hsher2.2.2.1, hrid]; simp
  · rw [hsher2.2.2.2.1, setHeight_heightStyle]
    rfl
  · rw [hcol]; exact hstep2b
  · simp
  · rw [hbid]; simp

theorem C2_witness :
    ∃ er1 eb1 er2 eb2,
      findE 1 (clickHandler wState1 10).doc = some er1 ∧
      er1.idAttr = "expanded" ∧
      er1.heightStyle = some (expandHeightOf wEditor1) ∧
      findE 10 (clickHandler wState1 10).doc = some eb1 ∧
      eb1.idAttr = "expanded" ∧
      findE 1 (clickHandler (clickHandler wState1 10) 10).doc = some er2 ∧
      er2.idAttr = "collapsed" ∧ er2.idAttr = wEditor1.idAttr ∧
      er2.heightStyle = some "400px" ∧
      findE 10 (clickHandler (clickHandler wState1 10) 10).doc = some eb2 ∧
      eb2.idAttr = "collapsed" ∧ eb2.idAttr = wBtn1.idAttr :=
  C2_toggle_round_trip wState1 10 1 wBtn1 wEditor1 rfl rfl rfl rfl rfl rfl rfl rfl

def wBtn9b : Elem := .mk 61 [btnCls] "expanded" none 0 []
def wEdExp : Elem := .mk 60 [edCls] "expanded" (some "auto") 600 [wBtn9b]
def wBody9b : Elem := .mk 0 [] "" none 1000 [wEdExp]

def wState9b : EnhState := { wState9 with doc := wBody9b }

theorem msgSel_congr (h : Elem.classes e1 = Elem.classes e2) : msgSel e1 = msgSel e2 := by
  unfold msgSel
  rw [hasClass_congr h, hasClass_congr h]

/-- C9: when the expected inner sub-elements are missing, a toggle click
still completes through its fallback and raises no error: expanding a
collapsed root with no inner scroller descendant applies the
unconstrained `auto` height and marks the root expanded; collapsing a
root with no matching ancestor message container performs no scroll (the
scroll log is unchanged) while still applying the "400px" height and the
collapsed markers. -/
theorem C9_click_fallbacks (σ : EnhState) (b r : Nat) (eb er : Elem)
    (hfb : findE b σ.doc = some eb)
    (hbtn : eb.hasClass btnCls = true) (hbed : eb.hasClass edCls = false)
    (hcl : closestE (fun e => e.hasClass edCls) b σ.doc = some r)
    (hfr : findE r σ.doc = some er) (hred : er.hasClass edCls = true) :
    (er.idAttr = "collapsed" → qsa scrollerCls er = [] →
      ∃ er1, findE r (clickHandler σ b).doc = some er1 ∧
        er1.idAttr = "expanded" ∧ er1.heightStyle = some "auto") ∧
    (¬ er.idAttr = "collapsed" → closestE msgSel r σ.doc = none →
      (clickHandler σ b).scrolls = σ.scrolls ∧
      ∃ er1, findE r (clickHandler σ b).doc = some er1 ∧
        er1.idAttr = "collapsed" ∧ er1.heightStyle = some "400px") := by
  have hbr : b ≠ r := by
    intro h
    subst h
    rw [hfb] at hfr
    cases hfr
    rw [hred] at hbed
    exact Bool.noConfusion hbed
  constructor
  · intro hrid hnoscr
    have hauto : expandHeightOf er = "auto" := by
      unfold expandHeightOf
      rw [hnoscr]
      rfl
    have hexp := clickHandler_expand_spec σ b r eb er hfb hbtn hcl hfr hrid
    have hTE : TameF [] (fun e : Elem =>
        (e.setIdAttr "expanded").setHeight (some (expandHeightOf er))) :=
      TameF.of_fieldsOnly fieldsOnly_setIdAttr_setHeight
    have hTI : TameF ([] : List Nat) (Elem.setIdAttr "expanded") :=
      TameF.of_fieldsOnly fieldsOnly_setIdAttr
    have hstep1r : findE r (updAt r (fun e : Elem =>
        (e.setIdAttr "expanded").setHeight (some (expandHeightOf er))) σ.doc) =
        some ((er.setIdAttr "expanded").setHeight (some (expandHeightOf er))) :=
      findE_updAt_self hTE σ.doc er hfr
    obtain ⟨er1, her1, hsher1, _⟩ := findE_updAt_ne hTI hbr.symm (by simp)
      (updAt r (fun e : Elem =>
        (e.setIdAttr "expanded").setHeight (some (expandHeightOf er))) σ.doc)
      ((er.setIdAttr "expanded").setHeight (some (expandHeightOf er))) hstep1r
    refine ⟨er1, by rw [hexp]; exact her1, ?_, ?_⟩
    · rw [hsher1.2.2.1]; simp
    · rw [hsher1.2.2.2.1, setHeight_heightStyle, hauto]
  · intro hrid hnc
    have hcolspec := clickHandler_collapse_spec σ b r eb er hfb hbtn hcl hfr hrid
    have hstable : closestE msgSel r
        (updAt b (Elem.setIdAttr "collapsed")
          (updAt r (fun e : Elem => (e.setIdAttr "collapsed").setHeight
            (some (heightPx COLLAPSED_HEIGHT))) σ.doc)) = none := by
      rw [closestE_updAt fieldsOnly_setIdAttr (fun e1 e2 h => msgSel_congr h),
        closestE_updAt fieldsOnly_setIdAttr_setHeight (fun e1 e2 h => msgSel_congr h)]
      exact hnc
    have hclick : clickHandler σ b =
        { σ with
          doc :=
            updAt b (Elem.setIdAttr "collapsed")
              (updAt r
                (fun e : Elem =>
                  (e.setIdAttr "collapsed").setHeight (some (heightPx COLLAPSED_HEIGHT)))
                σ.doc) } := by
      rw [hcolspec, hstable]
      rfl
    have hTC : TameF [] (fun e : Elem =>
        (e.setIdAttr "collapsed").setHeight (some (heightPx COLLAPSED_HEIGHT))) :=
      TameF.of_fieldsOnly fieldsOnly_setIdAttr_setHeight
    have hTI2 : TameF ([] : List Nat) (Elem.setIdAttr "collapsed") :=
      TameF.of_fieldsOnly fieldsOnly_setIdAttr
    have hstep2r : findE r (updAt r (fun e : Elem =>
        (e.setIdAttr "collapsed").setHeight (some (heightPx COLLAPSED_HEIGHT))) σ.doc) =
        some ((er.setIdAttr "collapsed").setHeight (some (heightPx COLLAPSED_HEIGHT))) :=
      findE_updAt_self hTC σ.doc er hfr
    obtain ⟨er1, her1, hsher1, _⟩ := findE_updAt_ne hTI2 hbr.symm (by simp) _
      ((er.setIdAttr "collapsed").setHeight (some (heightPx COLLAPSED_HEIGHT))) hstep2r
    refine ⟨by rw [hclick], er1, by rw [hclick]; exact her1, ?_, ?_⟩
    · rw [hsher1.2.2.1]; simp
    · rw [hsher1.2.2.2.1, setHeight_heightStyle]
      rfl

theorem C9_witness :
    (∃ er1, findE 60 (clickHandler wState9 61).doc = some er1 ∧
      er1.idAttr = "expanded" ∧ er1.heightStyle = some "auto") ∧
    ((clickHandler wState9b 61).scrolls = wState9b.scrolls ∧
      ∃ er1, findE 60 (clickHandler wState9b 61).doc = some er1 ∧
        er1.idAttr = "collapsed" ∧ er1.heightStyle = some "400px") :=
  ⟨(C9_click_fallbacks wState9 61 60 wBtn9 wEdNoScr rfl rfl rfl rfl rfl rfl).1 rfl rfl,
   (C9_click_fallbacks wState9b 61 60 wBtn9b wEdExp rfl rfl rfl rfl rfl rfl).2
     (by decide) rfl⟩

/-- Evolution relation between states: well-formedness is preserved, and
every document node stays present, keeps its classes and never loses
attached buttons. -/
def DocEvolves (σ σ' : EnhState) : Prop :=
  (WFdoc σ → WFdoc σ') ∧
  (WFdoc σ → ∀ k e, findE k σ.doc = some e →
    ∃ e', findE k σ'.doc = some e' ∧ e'.classes = e.classes ∧ btnCC e ≤ btnCC e')

theorem evolve_refl (σ : EnhState) : DocEvolves σ σ :=
  ⟨id, fun _ k e hfo => ⟨e, hfo, rfl, le_refl _⟩⟩

theorem evolve_trans (h1 : DocEvolves σ σ1) (h2 : DocEvolves σ1 σ2) :
    DocEvolves σ σ2 := by
  refine ⟨fun hwf => h2.1 (h1.1 hwf), fun hwf k e hfo => ?_⟩
  obtain ⟨e1, hf1, hc1, hb1⟩ := h1.2 hwf k e hfo
  obtain ⟨e2, hf2, hc2, hb2⟩ := h2.2 (h1.1 hwf) k e1 hf1
  exact ⟨e2, hf2, hc2.trans hc1, le_trans hb1 hb2⟩

theorem evolve_of_shape (σ σ' : EnhState) (hdoc : σ'.doc = σ.doc)
    (hnext : σ'.nextId = σ.nextId) : DocEvolves σ σ' := by
  constructor
  · intro hwf
    unfold WFdoc
    rw [hdoc, hnext]
    exact hwf
  · intro _ k e hfo
    rw [hdoc]
    exact ⟨e, hfo, rfl, le_refl _⟩

theorem btnCC_updateCodeBlockElem_ge (n : Nat) (e : Elem) :
    btnCC e ≤ btnCC (updateCodeBlockElem n e) := by
  unfold updateCodeBlockElem
  by_cases h1 : (qsa btnCls e).isEmpty = true
  · rw [if_pos h1]
    by_cases h2 : COLLAPSED_HEIGHT < e.scrollHeight
    · rw [if_pos h2]
      cases e with
      | mk i c a h s cs =>
        show btnCC (Elem.mk i c a h s cs) ≤
          btnCC (Elem.mk i c "collapsed" (some (heightPx COLLAPSED_HEIGHT)) s
            (cs ++ [mkExpandBtn n]))
        rw [btnCC_mk, btnCC_mk, List.filter_append, List.length_append]
        exact Nat.le_add_right _ _
    · rw [if_neg h2]
  · rw [if_neg h1]

theorem evolve_doc_upd (σ : EnhState) (k : Nat) (hwf : WFdoc σ) :
    ∀ k' e, findE k' σ.doc = some e →
      ∃ e', findE k' (updAt k (updateCodeBlockElem σ.nextId) σ.doc) = some e' ∧
        e'.classes = e.classes ∧ btnCC e ≤ btnCC e' := by
  intro k' e hfo
  by_cases hkk : k' = k
  · subst hkk
    refine ⟨updateCodeBlockElem σ.nextId e,
      findE_updAt_self tameF_updateCodeBlockElem σ.doc e hfo,
      (tameF_updateCodeBlockElem e).2.1, btnCC_updateCodeBlockElem_ge _ e⟩
  · obtain ⟨e', hf, hsh, _⟩ := findE_updAt_ne tameF_updateCodeBlockElem hkk
      (findE_ne_nextId hwf hfo) σ.doc e hfo
    exact ⟨e', hf, hsh.2.1, le_of_eq hsh.2.2.2.2.2.symm⟩

theorem evolve_updateCodeBlockState (σ : EnhState) (k : Nat) :
    DocEvolves σ (updateCodeBlockState σ k) :=
  ⟨fun hwf => WFD_upd hwf, fun hwf => evolve_doc_upd σ k hwf⟩

theorem evolve_initializeCodeBlock (σ : EnhState) (k : Nat) :
    DocEvolves σ (initializeCodeBlock σ k) := by
  rcases initializeCodeBlock_cases σ k with h | ⟨e, _, _, _, h⟩
  · rw [h]; exact evolve_refl σ
  · rw [h]
    exact ⟨fun hwf => WFD_upd hwf, fun hwf => evolve_doc_upd σ k hwf⟩

theorem evolve_foldl {α : Type} (stepF : EnhState → α → EnhState)
    (hstep : ∀ σ a, DocEvolves σ (stepF σ a)) :
    ∀ (L : List α) (σ : EnhState), DocEvolves σ (L.foldl stepF σ) := by
  intro L
  induction L with
  | nil => intro σ; exact evolve_refl σ
  | cons a L ih =>
    intro σ
    rw [List.foldl_cons]
    exact evolve_trans (hstep σ a) (ih (stepF σ a))

theorem evolve_scan (σ : EnhState) : DocEvolves σ (initializeAllCodeBlocks σ) := by
  unfold initializeAllCodeBlocks
  by_cases h : σ.isCurrentlyEditPage = true
  · rw [if_pos h]; exact evolve_refl σ
  · rw [if_neg h]
    exact evolve_foldl initializeCodeBlock evolve_initializeCodeBlock _ σ

theorem evolve_resizeStep (σ : EnhState) (k : Nat) : DocEvolves σ (resizeStep σ k) := by
  unfold resizeStep
  cases hfo : findE k σ.doc with
  | none => exact evolve_refl σ
  | some e =>
    dsimp only
    by_cases hcls : e.hasClass edCls = true
    · rw [if_pos hcls]
      exact evolve_updateCodeBlockState σ k
    · rw [if_neg hcls]
      exact evolve_refl σ

theorem evolve_resizeCallback (σ : EnhState) (entries : List Nat) :
    DocEvolves σ (resizeCallback σ entries) := by
  unfold resizeCallback
  by_cases h : σ.isCurrentlyEditPage = true
  · rw [if_pos h]; exact evolve_refl σ
  · rw [if_neg h]
    exact evolve_foldl resizeStep evolve_resizeStep entries σ

theorem evolve_mutationAddedStep (σ : EnhState) (k : Nat) :
    DocEvolves σ (mutationAddedStep σ k) := by
  unfold mutationAddedStep
  cases hfo : findE k σ.doc with
  | none => exact evolve_refl σ
  | some e =>
    dsimp only
    by_cases hcls : e.hasClass edCls = true
    · rw [if_pos hcls]
      exact evolve_initializeCodeBlock σ k
    · rw [if_neg hcls]
      exact evolve_foldl initializeCodeBlock evolve_initializeCodeBlock _ σ

theorem evolve_mutationCallback (σ : EnhState) (muts : List (List Nat)) :
    DocEvolves σ (mutationCallback σ muts) := by
  unfold mutationCallback
  by_cases h : σ.isCurrentlyEditPage = true
  · rw [if_pos h]; exact evolve_refl σ
  · rw [if_neg h]
    exact evolve_foldl _
      (fun σm added => evolve_foldl mutationAddedStep evolve_mutationAddedStep added σm)
      muts σ

theorem btnCC_fieldsOnly (hf : FieldsOnly f) (e : Elem) : btnCC (f e) = btnCC e := by
  unfold btnCC
  rw [(hf e).2.2.2]

theorem WFD_updAt_fieldsOnly (hf : FieldsOnly f) (hwf : WFD d n) :
    WFD (updAt t f d) n := by
  constructor
  · exact nodup_allEids_updAt (TameF.of_fieldsOnly (N := []) hf) d hwf.1
      (fun m hm => absurd hm (List.not_mem_nil m))
  · intro x hx
    rcases allEids_updAt_subset (N := []) (TameF.of_fieldsOnly hf) d x hx with hm | hm
    · exact hwf.2 x hm
    · cases hm

theorem evolve_state_two_fieldsOnly (σ : EnhState) (f g : Elem → Elem)
    (hf : FieldsOnly f) (hg : FieldsOnly g) (t1 t2 : Nat) (σ' : EnhState)
    (hdoc : σ'.doc = updAt t2 g (updAt t1 f σ.doc)) (hnext : σ'.nextId = σ.nextId) :
    DocEvolves σ σ' := by
  constructor
  · intro hwf
    unfold WFdoc
    rw [hdoc, hnext]
    exact WFD_updAt_fieldsOnly hg (WFD_updAt_fieldsOnly hf hwf)
  · intro _ k e hfo
    rw [hdoc]
    have step1 : ∃ e1, findE k (updAt t1 f σ.doc) = some e1 ∧
        e1.classes = e.classes ∧ btnCC e1 = btnCC e := by
      by_cases hk : k = t1
      · subst hk
        exact ⟨f e, findE_updAt_self (TameF.of_fieldsOnly (N := []) hf) σ.doc e hfo,
          (hf e).2.1, btnCC_fieldsOnly hf e⟩
      · obtain ⟨e1, hf1, hsh, _⟩ := findE_updAt_ne (TameF.of_fieldsOnly (N := []) hf) hk
          (by simp) σ.doc e hfo
        exact ⟨e1, hf1, hsh.2.1, hsh.2.2.2.2.2⟩
    obtain ⟨e1, hf1, hc1, hb1⟩ := step1
    by_cases hk : k = t2
    · subst hk
      exact ⟨g e1, findE_updAt_self (TameF.of_fieldsOnly (N := []) hg) _ e1 hf1,
        ((hg e1).2.1).trans hc1, le_of_eq ((btnCC_fieldsOnly hg e1).trans hb1).symm⟩
    · obtain ⟨e2, hf2, hsh, _⟩ := findE_updAt_ne (TameF.of_fieldsOnly (N := []) hg) hk
        (by simp) _ e1 hf1
      exact ⟨e2, hf2, hsh.2.1.trans hc1,
        le_of_eq (hsh.2.2.2.2.2.trans hb1).symm⟩

theorem evolve_clickHandler (σ : EnhState) (t : Nat) :
    DocEvolves σ (clickHandler σ t) := by
  unfold clickHandler
  split
  · exact evolve_refl σ
  · split
    · exact evolve_refl σ
    · split
      · exact evolve_refl σ
      · split
        · exact evolve_refl σ
        · split
          · exact evolve_state_two_fieldsOnly σ _ _
              fieldsOnly_setIdAttr_setHeight fieldsOnly_setIdAttr _ _ _ rfl rfl
          · dsimp only
            split
            · exact evolve_state_two_fieldsOnly σ _ _
                fieldsOnly_setIdAttr_setHeight fieldsOnly_setIdAttr _ _ _ rfl rfl
            · exact evolve_state_two_fieldsOnly σ _ _
                fieldsOnly_setIdAttr_setHeight fieldsOnly_setIdAttr _ _ _ rfl rfl

theorem evolve_onRouteChange (σ : EnhState) : DocEvolves σ (onRouteChange σ) := by
  cases hc : checkIsEditPage σ.url with
  | true =>
    cases ha : σ.mutationObserverActive with
    | true =>
      rw [onRouteChange_edit_active hc ha]
      exact evolve_of_shape _ _ rfl rfl
    | false =>
      rw [onRouteChange_edit_inactive hc ha]
      exact evolve_of_shape _ _ rfl rfl
  | false =>
    rw [onRouteChange_noedit hc]
    have h0 : DocEvolves σ { σ with isCurrentlyEditPage := false } :=
      evolve_of_shape _ _ rfl rfl
    have h1 : DocEvolves σ
        (initializeAllCodeBlocks { σ with isCurrentlyEditPage := false }) :=
      evolve_trans h0 (evolve_scan _)
    by_cases ha : σ.mutationObserverActive = true
    · rw [if_pos ha]
      exact h1
    · rw [if_neg ha]
      exact evolve_trans h1 (evolve_of_shape _ _ rfl rfl)

theorem evolve_step (σ : EnhState) (op : EventOp) : DocEvolves σ (step σ op) := by
  cases op with
  | scan => exact evolve_scan σ
  | resize es => exact evolve_resizeCallback σ es
  | mutate ms => exact evolve_mutationCallback σ ms
  | click t => exact evolve_clickHandler σ t
  | navigate u =>
    exact evolve_trans (evolve_of_shape σ { σ with url := u } rfl rfl)
      (evolve_onRouteChange _)

/-- C7: once a toggle button has been attached to an editor root, no
subsequent event — a scan, a size-change batch, a structural-mutation
batch, a click, or a navigation — ever removes it: after any such event
the root is still present with at least one button-classed child, so the
no-button state is never re-entered even if content shrinks below the
threshold. -/
theorem C7_button_never_removed (σ : EnhState) (op : EventOp) (hwf : WFdoc σ)
    (r : Nat) (e : Elem) (hfo : findE r σ.doc = some e) (hbtn : 1 ≤ btnCC e) :
    ∃ e', findE r (step σ op).doc = some e' ∧ 1 ≤ btnCC e' := by
  obtain ⟨e', hf, _, hle⟩ := (evolve_step σ op).2 hwf r e hfo
  exact ⟨e', hf, le_trans hbtn hle⟩

theorem C7_witness :
    ∃ e', findE 1 (step wState1 (EventOp.resize [1])).doc = some e' ∧ 1 ≤ btnCC e' :=
  C7_button_never_removed wState1 (EventOp.resize [1])
    (by constructor <;> decide) 1 wEditor1 rfl (by decide)

/-- C6 counterexample: an editor root added via a structural mutation is
NOT always initialized, even though it is nested inside the added node
and its content height exceeds the threshold.  Here the added node
(identity 20) is itself an editor root containing a nested editor root
(identity 21, scroll height 700 > 400, route mode enabled): after the
structural-change reaction the nested editor is neither tracked nor
size-observed, and its node is completely unchanged (no button, no
marker). -/
theorem C6_counterexample :
    (findE 21 wStateN.doc = some wInner ∧ wInner.hasClass edCls = true ∧
      COLLAPSED_HEIGHT < wInner.scrollHeight ∧
      wStateN.isCurrentlyEditPage = false) ∧
    21 ∉ (mutationCallback wStateN [[20]]).observed ∧
    21 ∉ (mutationCallback wStateN [[20]]).resizeObserved ∧
    findE 21 (mutationCallback wStateN [[20]]).doc = some wInner := by
  refine ⟨⟨rfl, rfl, by decide, rfl⟩, ?_, ?_, rfl⟩
  · decide
  · decide

/-- C6 (amended): for a node added to the document via a structural
mutation, off the disabled page: when the added node is NOT itself an
editor root, every editor root among its descendants — however deeply
nested — is detected and initialized exactly once (tracked once,
size-observed once, and evaluated: collapsed with one button and height
"400px" when taller than the threshold); when the added node IS itself
an editor root, that node alone is initialized exactly once and
evaluated, and its nested editor descendants are not searched or
initialized.  Hypotheses: well-formed identities, the added subtree is
host-rendered (button-free) and new (its identities are not yet tracked
or size-observed). -/
theorem C6_mutation_initializes_added_editors (σ : EnhState) (hwf : WFdoc σ)
    (hpage : σ.isCurrentlyEditPage = false)
    (a : Nat) (ea : Elem) (hfa : findE a σ.doc = some ea)
    (hbf : btnFree ea = true)
    (hnew : ∀ x ∈ allEids ea, x ∉ σ.observed ∧ x ∉ σ.resizeObserved) :
    (ea.hasClass edCls = false →
      ∀ k e, k ∈ (qsa edCls ea).map Elem.eid → findE k σ.doc = some e →
        (mutationCallback σ [[a]]).observed.count k = 1 ∧
        (mutationCallback σ [[a]]).resizeObserved.count k = 1 ∧
        ∃ e', findE k (mutationCallback σ [[a]]).doc = some e' ∧
          (COLLAPSED_HEIGHT < e.scrollHeight →
            e'.idAttr = "collapsed" ∧ e'.heightStyle = some "400px" ∧ btnCC e' = 1)) ∧
    (ea.hasClass edCls = true →
      (mutationCallback σ [[a]]).observed.count a = 1 ∧
      (mutationCallback σ [[a]]).resizeObserved.count a = 1 ∧
      (∀ k, k ∈ (qsa edCls ea).map Elem.eid →
        (mutationCallback σ [[a]]).observed.count k = 0) ∧
      ∃ e', findE a (mutationCallback σ [[a]]).doc = some e' ∧
        (COLLAPSED_HEIGHT < ea.scrollHeight →
          e'.idAttr = "collapsed" ∧ e'.heightStyle = some "400px" ∧ btnCC e' = 1)) := by
  have hmc : mutationCallback σ [[a]] = mutationAddedStep σ a := by
    unfold mutationCallback
    rw [if_neg (by rw [hpage]; exact Bool.false_ne_true)]
    rfl
  have head : ea ∈ allNodes σ.doc := (findE_some_props σ.doc ea hfa).2
  have haeid : ea.eid = a := (findE_some_props σ.doc ea hfa).1
  constructor
  · intro hcls k e hkL hfke
    have hmas : mutationCallback σ [[a]] =
        ((qsa edCls ea).map Elem.eid).foldl initializeCodeBlock σ := by
      rw [hmc]
      unfold mutationAddedStep
      simp only [hfa]
      rw [if_neg (by rw [hcls]; exact Bool.false_ne_true)]
    -- the node found in the document is the node of the added subtree
    obtain ⟨x, hx, hxe⟩ := List.mem_map.mp hkL
    have hxd : x ∈ allNodes σ.doc := allNodes_trans σ.doc ea head x (mem_allNodes_of_qsa hx)
    have hfx : findE k σ.doc = some x := hxe ▸ findE_of_mem σ.doc hwf.1 x hxd
    have hex : e = x := by
      rw [hfx] at hfke
      exact (Option.some_inj.mp hfke).symm
    have hkea : k ∈ allEids ea := by
      rw [← hxe]
      exact eid_mem_allEids (mem_allNodes_of_qsa hx)
    obtain ⟨e', hfind, _, _, htall, _, hc1, hc2⟩ :=
      foldInit_processed ((qsa edCls ea).map Elem.eid) σ hwf
        (pairwise_qsa_list hwf.1 head) (nodup_qsa_list hwf.1 head)
        (hmem_qsa_list hwf.1 head) k hkL
        (hnew k hkea).1 (hnew k hkea).2
        e hfke (by rw [hex]; exact btnFree_sub hbf (mem_allNodes_of_qsa hx))
    rw [hmas]
    refine ⟨hc1, hc2, e', hfind, ?_⟩
    intro hs
    obtain ⟨h1, h2, h3⟩ := htall hs
    exact ⟨h1, by rw [h2]; rfl, h3⟩
  · intro hcls
    have hobs : a ∉ σ.observed := (hnew a (haeid ▸ eid_mem_allEids (self_mem_allNodes ea))).1
    have hres : a ∉ σ.resizeObserved :=
      (hnew a (haeid ▸ eid_mem_allEids (self_mem_allNodes ea))).2
    have hmas : mutationCallback σ [[a]] = initializeCodeBlock σ a := by
      rw [hmc]
      unfold mutationAddedStep
      simp only [hfa]
      rw [if_pos hcls]
    have hself := initializeCodeBlock_self hfa hcls hobs
    have hndea : (allEids ea).Nodup := nodup_sub σ.doc hwf.1 ea head
    refine ⟨?_, ?_, ?_, ?_⟩
    · rw [hmas, hself]
      show (a :: σ.observed).count a = 1
      rw [List.count_cons_self, List.count_eq_zero.mpr hobs]
    · rw [hmas, hself]
      show (a :: σ.resizeObserved).count a = 1
      rw [List.count_cons_self, List.count_eq_zero.mpr hres]
    · intro k hkL
      obtain ⟨x, hx, hxe⟩ := List.mem_map.mp hkL
      have hkdesc : k ∈ allEidsL ea.children := by
        rw [← hxe]
        exact allEids_subset_of_mem_allNodesL (List.mem_filter.mp hx).1 _
          (eid_mem_allEids (self_mem_allNodes x))
      have hka : k ≠ a := by
        intro hk
        rw [allEids_expand, haeid, List.nodup_cons] at hndea
        exact hndea.1 (hk ▸ hkdesc)
      have hkobs : k ∉ σ.observed := by
        refine (hnew k ?_).1
        rw [allEids_expand]
        exact List.mem_cons_of_mem _ hkdesc
      rw [hmas, hself]
      show (a :: σ.observed).count k = 0
      rw [List.count_cons_of_ne hka, List.count_eq_zero.mpr hkobs]
    · rw [hmas, hself]
      refine ⟨updateCodeBlockElem σ.nextId ea,
        findE_updAt_self tameF_updateCodeBlockElem σ.doc ea hfa, ?_⟩
      intro hs
      obtain ⟨_, _, _, h4, h5, h6⟩ :=
        updateCodeBlockElem_tall (btnFree_qsa_empty hbf) hs (n := σ.nextId)
      exact ⟨h4, by rw [h5]; rfl, by rw [h6, btnFree_btnCC hbf]⟩

theorem C6_witness :
    (mutationCallback wStateW [[40]]).observed.count 42 = 1 ∧
    (mutationCallback wStateW [[40]]).resizeObserved.count 42 = 1 ∧
    ∃ e', findE 42 (mutationCallback wStateW [[40]]).doc = some e' ∧
      (COLLAPSED_HEIGHT < wDeepEd.scrollHeight →
        e'.idAttr = "collapsed" ∧ e'.heightStyle = some "400px" ∧ btnCC e' = 1) :=
  (C6_mutation_initializes_added_editors wStateW (by constructor <;> decide) rfl
      40 wWrap rfl (by decide) (by decide)).1 rfl 42 wDeepEd (by decide) rfl
